import Mathlib

/-!
# Verification of the `iced-themer` resolution pipeline

A shallow embedding of the core of the `iced-themer` repository:

* `src/color.rs`   — color token parsing and canonical hex display
* `src/expr.rs`    — the color-expression evaluator
* `src/variables.rs` — variable extraction, reference resolution, substitution
* `src/style/*.rs` — the per-widget cascade resolvers
* `src/config.rs`, `src/lib.rs` — theme assembly

Rust strings are embedded as `List Char` (the inputs relevant to the claims
are ASCII, where Rust's byte indexing and char indexing agree).  `f32` color
components are embedded as exact rationals `ℚ`; this is faithful on every
value reachable here: all stored components have the form `b / 255` with
`b : ℕ ≤ 255`, and for every such value the `f32` computations performed by
the code (`b/255.0`, `x*255.0` followed by truncating cast, and the
`|a - 1| < EPSILON` test) yield the same results as exact rational
arithmetic.  Fallible Rust functions returning `Result<T, String>` are
embedded as `Except Str T`.
-/

set_option autoImplicit false

namespace IcedThemer

/-- Rust `&str` / `String` values, embedded as lists of characters. -/
abbrev Str := List Char

/-! ## Character helpers (Rust `char` methods) -/

/-- Rust `char::is_ascii_alphabetic` (`A`-`Z` or `a`-`z`). -/
def isAsciiAlphabetic (c : Char) : Bool :=
  (65 ≤ c.toNat && c.toNat ≤ 90) || (97 ≤ c.toNat && c.toNat ≤ 122)

/-- Rust `char::is_ascii_digit` (`0`-`9`). -/
def isAsciiDigit (c : Char) : Bool :=
  48 ≤ c.toNat && c.toNat ≤ 57

/-- ASCII whitespace as recognised by `str::trim` on the inputs in scope. -/
def isWs (c : Char) : Bool :=
  c = ' ' || c = '\t' || c = '\n' || c = '\r'

/-- Rust `char::to_ascii_lowercase` (`A`-`Z` shifted down into `a`-`z`). -/
def asciiToLower (c : Char) : Char :=
  if 65 ≤ c.toNat && c.toNat ≤ 90 then Char.ofNat (c.toNat + 32) else c

/-- Rust `char::to_ascii_uppercase` (used implicitly by `{:02X}` formatting). -/
def asciiToUpper (c : Char) : Char :=
  if 97 ≤ c.toNat && c.toNat ≤ 122 then Char.ofNat (c.toNat - 32) else c

/-- Value of a single hex digit, as accepted by `u8::from_str_radix(_, 16)`. -/
def hexVal : Char → Option Nat
  | 'A' | 'a' => some 10
  | 'B' | 'b' => some 11
  | 'C' | 'c' => some 12
  | 'D' | 'd' => some 13
  | 'E' | 'e' => some 14
  | 'F' | 'f' => some 15
  | '9' => some 9 | '8' => some 8 | '7' => some 7 | '6' => some 6 | '5' => some 5
  | '4' => some 4 | '3' => some 3 | '2' => some 2 | '1' => some 1 | '0' => some 0
  | _ => none

/-- The uppercase hex digit for a value `< 16` (Rust `{:X}` formatting). -/
def hexDigitChar (n : Nat) : Char :=
  if n < 10 then Char.ofNat ('0'.toNat + n) else Char.ofNat ('A'.toNat + (n - 10))

/-! ## String helpers (Rust `str` methods) -/

/-- Rust `str::trim_start` (ASCII inputs). -/
def trimLeft : Str → Str
  | [] => []
  | c :: cs => if isWs c then trimLeft cs else c :: cs

/-- Rust `str::trim_end` (ASCII inputs). -/
def trimRight (s : Str) : Str :=
  (trimLeft s.reverse).reverse

/-- Rust `str::trim` (ASCII inputs). -/
def trim (s : Str) : Str :=
  trimRight (trimLeft s)

/-- Rust `str::split_once(ch)`: the parts before and after the first
occurrence of `ch`, or `none` if it does not occur. -/
def splitOnce (ch : Char) : Str → Option (Str × Str)
  | [] => none
  | c :: cs =>
    if c = ch then some ([], cs)
    else (splitOnce ch cs).map (fun p => (c :: p.1, p.2))

/-- Rust `str::split(ch)` collected into a vector: the (possibly empty)
segments between occurrences of `ch`. -/
def splitAll (ch : Char) : Str → List Str
  | [] => [[]]
  | c :: cs =>
    if c = ch then [] :: splitAll ch cs
    else match splitAll ch cs with
      | [] => [[c]]
      | h :: t => (c :: h) :: t

/-- Rust `str::strip_suffix(ch)`. -/
def stripSuffixCh (ch : Char) (s : Str) : Option Str :=
  match s.reverse with
  | [] => none
  | c :: cs => if c = ch then some cs.reverse else none

/-- Decimal digits of a natural number (Rust `{}` formatting), with fuel. -/
def natDigits : Nat → Nat → Str
  | 0, _ => []
  | fuel + 1, n =>
    if n < 10 then [Char.ofNat ('0'.toNat + n)]
    else natDigits fuel (n / 10) ++ [Char.ofNat ('0'.toNat + n % 10)]

/-- Decimal rendering of a natural number (Rust `{}` formatting). -/
def natToStr (n : Nat) : Str :=
  natDigits (n + 1) n

/-- Rust `u8::from_str`: an optional `+` sign followed by one or more decimal
digits whose value fits in `u8` (`≤ 255`). -/
def parseU8 (s : Str) : Option Nat :=
  let digits := match s with
    | '+' :: rest => rest
    | _ => s
  if digits = [] then none
  else if digits.all isAsciiDigit then
    let n := digits.foldl (fun acc c => acc * 10 + (c.toNat - '0'.toNat)) 0
    if n ≤ 255 then some n else none
  else none

/-- Rust `i32::from_str`: an optional sign followed by decimal digits
(the full `i32` range is irrelevant here; angle literals in scope are small,
and the embedding accepts any magnitude). -/
def parseIntStr (s : Str) : Option Int :=
  match s with
  | '-' :: rest =>
    if rest ≠ [] && rest.all isAsciiDigit then
      some (-(rest.foldl (fun acc c => acc * 10 + (c.toNat - '0'.toNat)) 0 : Nat))
    else none
  | '+' :: rest =>
    if rest ≠ [] && rest.all isAsciiDigit then
      some ((rest.foldl (fun acc c => acc * 10 + (c.toNat - '0'.toNat)) 0 : Nat))
    else none
  | _ =>
    if s ≠ [] && s.all isAsciiDigit then
      some ((s.foldl (fun acc c => acc * 10 + (c.toNat - '0'.toNat)) 0 : Nat))
    else none

/-! ## `src/color.rs`: color parsing and canonical display -/

/-- `iced_core::Color`, embedded with exact rational components. -/
structure ColorQ where
  r : ℚ
  g : ℚ
  b : ℚ
  a : ℚ
  deriving DecidableEq, Repr

/-- `Color::from_rgb8`. -/
def fromRgb8 (r g b : Nat) : ColorQ :=
  ⟨(r : ℚ) / 255, (g : ℚ) / 255, (b : ℚ) / 255, 1⟩

/-- `Color::from_rgba8` (alpha passed directly as an `f32`). -/
def fromRgba8 (r g b : Nat) (a : ℚ) : ColorQ :=
  ⟨(r : ℚ) / 255, (g : ℚ) / 255, (b : ℚ) / 255, a⟩

/-- `Color::BLACK`. -/
def colorBlack : ColorQ := fromRgb8 0 0 0

/-- `Color::WHITE`. -/
def colorWhite : ColorQ := fromRgb8 255 255 255

/-- `Color::TRANSPARENT`. -/
def colorTransparent : ColorQ := ⟨0, 0, 0, 0⟩

/-- `parse_hex_digit`: `u8::from_str_radix(&hex[pos..pos+1], 16)` on the
single character at `pos`. -/
def parseHexDigit (hex : Str) (pos : Nat) : Except Str Nat :=
  match hex.drop pos with
  | c :: _ =>
    match hexVal c with
    | some v => .ok v
    | none => .error ("invalid hex digit at position ".toList ++ natToStr pos)
  | [] => .error ("invalid hex digit at position ".toList ++ natToStr pos)

/-- `parse_hex_byte`: `u8::from_str_radix(&hex[pos..pos+2], 16)` on the
two-character window at `pos` (Rust's radix parser also accepts a
leading `+` before a single digit). -/
def parseHexByte (hex : Str) (pos : Nat) : Except Str Nat :=
  let win := (hex.drop pos).take 2
  let fail : Except Str Nat :=
    .error ("invalid hex byte at position ".toList ++ natToStr pos)
  match win with
  | ['+', c] =>
    match hexVal c with
    | some v => .ok v
    | none => fail
  | [c1, c2] =>
    match hexVal c1, hexVal c2 with
    | some v1, some v2 => .ok (16 * v1 + v2)
    | _, _ => fail
  | _ => fail

/-- `parse_color`: named colors, `#RGB`, `#RRGGBB`, `#RRGGBBAA`. -/
def parseColor (s : Str) : Except Str ColorQ :=
  let low := s.map asciiToLower
  if low = "black".toList then .ok colorBlack
  else if low = "white".toList then .ok colorWhite
  else if low = "transparent".toList then .ok colorTransparent
  else
    match s with
    | '#' :: hex =>
      match hex.length with
      | 3 => do
        let r ← parseHexDigit hex 0
        let g ← parseHexDigit hex 1
        let b ← parseHexDigit hex 2
        .ok (fromRgb8 (16 * r + r) (16 * g + g) (16 * b + b))
      | 6 => do
        let r ← parseHexByte hex 0
        let g ← parseHexByte hex 2
        let b ← parseHexByte hex 4
        .ok (fromRgb8 r g b)
      | 8 => do
        let r ← parseHexByte hex 0
        let g ← parseHexByte hex 2
        let b ← parseHexByte hex 4
        let a ← parseHexByte hex 6
        .ok (fromRgba8 r g b ((a : ℚ) / 255))
      | n =>
        .error ("expected 3, 6, or 8 hex digits after '#', got ".toList ++ natToStr n)
    | _ =>
      .error ("expected '#' prefix or a named color, got ".toList ++ s)

/-- Rust `as u8` applied to a non-NaN `f32`: truncate toward zero and
saturate to `0..=255`. -/
def u8OfQ (x : ℚ) : Nat :=
  if x < 0 then 0 else min 255 ⌊x⌋.toNat

/-- `f32::EPSILON` is `2⁻²³`. -/
def epsQ : ℚ := 1 / 8388608

/-- Two uppercase hex digits of a byte (Rust `{:02X}`). -/
def hex2 (n : Nat) : Str :=
  [hexDigitChar (n / 16), hexDigitChar (n % 16)]

/-- `impl fmt::Display for HexColor`: `#RRGGBB` when alpha is `1.0` within
`f32::EPSILON`, otherwise `#RRGGBBAA`. -/
def displayColor (c : ColorQ) : Str :=
  if |c.a - 1| < epsQ then
    '#' :: (hex2 (u8OfQ (c.r * 255)) ++ hex2 (u8OfQ (c.g * 255)) ++ hex2 (u8OfQ (c.b * 255)))
  else
    '#' :: (hex2 (u8OfQ (c.r * 255)) ++ hex2 (u8OfQ (c.g * 255)) ++ hex2 (u8OfQ (c.b * 255))
      ++ hex2 (u8OfQ (c.a * 255)))

instance {ε α : Type} [DecidableEq ε] [DecidableEq α] : DecidableEq (Except ε α) := by
  intro a b
  cases a <;> cases b
  case ok.ok x y => exact decidable_of_iff (x = y) (by constructor <;> (intro h; simp_all))
  case error.error x y => exact decidable_of_iff (x = y) (by constructor <;> (intro h; simp_all))
  all_goals exact .isFalse (by intro h; exact Except.noConfusion h)

/-! ## Variable tables

`HashMap<String, String>` is embedded as an association list.  Iteration
order of a Rust `HashMap` is unspecified; the embedding fixes the list
order, and every claim proved below about table-wide behaviour is
insensitive to that order. -/

/-- The variable table of `src/variables.rs`. -/
abbrev VarTab := List (Str × Str)

/-- `HashMap::get`. -/
def lookupVar (vars : VarTab) (n : Str) : Option Str :=
  match vars with
  | [] => none
  | (k, v) :: rest => if k = n then some v else lookupVar rest n

/-- `HashMap::contains_key` (also: membership in the key set). -/
def containsKey (vars : VarTab) (n : Str) : Bool :=
  (lookupVar vars n).isSome

/-! ## `src/expr.rs`: the color-expression evaluator

The numeric color transformations are provided by the external `farver`
crate, which is not part of this repository.  `toFarver` (the repository's
own `to_farver`) and the call/argument parsing are embedded from the source;
the bodies of the farver operations are modelled from the spec (§4.2): each
is a fixed-arity transformation in HSL space (`darken`/`lighten` adjust
lightness, `saturate`/`desaturate` adjust saturation, `tint`/`shade` blend
with white/black, `greyscale` drops saturation, `spin` rotates hue, `mix`
blends the two colors by the given weight), and the result is re-serialized
as a literal hex token — 6-digit, or 8-digit for `mix`, which can carry
transparency. -/

namespace Expr

/-- `farver::RGB`: an alpha-less byte color (the only form `to_farver`
produces). -/
structure FRGB where
  r : Nat
  g : Nat
  b : Nat
  deriving DecidableEq, Repr

/-- `farver::RGBA`, produced by `mix`. -/
structure FRGBA where
  r : Nat
  g : Nat
  b : Nat
  a : Nat
  deriving DecidableEq, Repr

/-- Rust `f32::round() as u8`: round half away from zero (arguments here are
nonnegative), saturating to `0..=255`. -/
def roundU8 (x : ℚ) : Nat :=
  if x < 0 then 0 else min 255 ⌊x + 1 / 2⌋.toNat

/-- `to_farver`: keep only the RGB channels, rounded to bytes.  The alpha
channel of the input color is discarded. -/
def toFarver (c : ColorQ) : FRGB :=
  ⟨roundU8 (c.r * 255), roundU8 (c.g * 255), roundU8 (c.b * 255)⟩

/-- Modelled from the spec: HSL coordinates used by the farver operations. -/
structure HSL where
  h : ℚ
  s : ℚ
  l : ℚ

/-- Modelled from the spec: standard RGB → HSL conversion. -/
def rgbToHsl (c : FRGB) : HSL :=
  let r : ℚ := (c.r : ℚ) / 255
  let g : ℚ := (c.g : ℚ) / 255
  let b : ℚ := (c.b : ℚ) / 255
  let mx := max r (max g b)
  let mn := min r (min g b)
  let l := (mx + mn) / 2
  if mx = mn then ⟨0, 0, l⟩
  else
    let d := mx - mn
    let s := if l > 1 / 2 then d / (2 - mx - mn) else d / (mx + mn)
    let h :=
      if mx = r then (g - b) / d + (if g < b then 6 else 0)
      else if mx = g then (b - r) / d + 2
      else (r - g) / d + 4
    ⟨h * 60, s, l⟩

/-- Modelled from the spec: the hue-to-channel helper of HSL → RGB. -/
def hue2rgb (p q t : ℚ) : ℚ :=
  let t := if t < 0 then t + 1 else if t > 1 then t - 1 else t
  if t < 1 / 6 then p + (q - p) * 6 * t
  else if t < 1 / 2 then q
  else if t < 2 / 3 then p + (q - p) * (2 / 3 - t) * 6
  else p

/-- Modelled from the spec: standard HSL → RGB conversion. -/
def hslToRgb (x : HSL) : FRGB :=
  if x.s = 0 then
    let v := roundU8 (x.l * 255)
    ⟨v, v, v⟩
  else
    let h := x.h / 360
    let q := if x.l < 1 / 2 then x.l * (1 + x.s) else x.l + x.s - x.l * x.s
    let p := 2 * x.l - q
    ⟨roundU8 (hue2rgb p q (h + 1 / 3) * 255),
     roundU8 (hue2rgb p q h * 255),
     roundU8 (hue2rgb p q (h - 1 / 3) * 255)⟩

/-- Clamp to the unit interval. -/
def clamp01 (x : ℚ) : ℚ := max 0 (min 1 x)

/-- Modelled from the spec: lightness adjustment (`darken` / `lighten`). -/
def adjustLight (c : FRGB) (delta : ℚ) : FRGB :=
  let x := rgbToHsl c
  hslToRgb ⟨x.h, x.s, clamp01 (x.l + delta)⟩

/-- Modelled from the spec: saturation adjustment
(`saturate` / `desaturate` / `greyscale`). -/
def adjustSat (c : FRGB) (delta : ℚ) : FRGB :=
  let x := rgbToHsl c
  hslToRgb ⟨x.h, clamp01 (x.s + delta), x.l⟩

/-- Modelled from the spec: hue rotation (`spin`), degrees wrapped mod 360. -/
def spinOp (c : FRGB) (angle : Int) : FRGB :=
  let x := rgbToHsl c
  let a := x.h + (angle : ℚ)
  hslToRgb ⟨a - 360 * ⌊a / 360⌋, x.s, x.l⟩

/-- Modelled from the spec: `mix(colorA, colorB, pct)` blends the two colors
with weight `pct/100` on the first; the result is an `RGBA` (both inputs
are opaque here, so the blended alpha is `255`). -/
def mixOp (c1 c2 : FRGB) (p : Nat) : FRGBA :=
  let w : ℚ := (p : ℚ) / 100
  ⟨roundU8 ((c1.r : ℚ) * w + (c2.r : ℚ) * (1 - w)),
   roundU8 ((c1.g : ℚ) * w + (c2.g : ℚ) * (1 - w)),
   roundU8 ((c1.b : ℚ) * w + (c2.b : ℚ) * (1 - w)),
   255⟩

/-- Modelled from the spec: `tint` blends the color toward white. -/
def tintOp (c : FRGB) (p : Nat) : FRGB :=
  let m := mixOp ⟨255, 255, 255⟩ c p
  ⟨m.r, m.g, m.b⟩

/-- Modelled from the spec: `shade` blends the color toward black. -/
def shadeOp (c : FRGB) (p : Nat) : FRGB :=
  let m := mixOp ⟨0, 0, 0⟩ c p
  ⟨m.r, m.g, m.b⟩

/-- `farver`'s `to_hex` on an `RGB` value: a 6-digit hex token. -/
def rgbToHex (c : FRGB) : Str :=
  '#' :: (hex2 c.r ++ hex2 c.g ++ hex2 c.b)

/-- `farver`'s `to_hex` on an `RGBA` value: an 8-digit hex token. -/
def rgbaToHex (c : FRGBA) : Str :=
  '#' :: (hex2 c.r ++ hex2 c.g ++ hex2 c.b ++ hex2 c.a)

/-- `parse_call`: split `name(args)` at the first `(` and strip the
trailing `)`. -/
def parseCall (s : Str) : Except Str (Str × Str) :=
  match splitOnce '(' s with
  | none => .error ("expected a function call, got `".toList ++ s ++ "`".toList)
  | some (name, rest) =>
    match stripSuffixCh ')' rest with
    | none => .error ("missing closing `)` in `".toList ++ s ++ "`".toList)
    | some args => .ok (trim name, args)

/-- `expect_args`: enforce the operation's arity. -/
def expectArgs (fnName : Str) (args : List Str) (n : Nat) : Except Str (List Str) :=
  if args.length = n then .ok args
  else
    .error ("`".toList ++ fnName ++ "` expects ".toList ++ natToStr n
      ++ " argument(s), got ".toList ++ natToStr args.length)

/-- `resolve_color`: a `$variable` reference (looked up in `vars`) or a
literal color token. -/
def resolveColor (s : Str) (vars : VarTab) : Except Str ColorQ :=
  let parseLit : Str → Except Str ColorQ := fun lit =>
    match parseColor lit with
    | .ok c => .ok c
    | .error e => .error ("invalid color `".toList ++ lit ++ "`: ".toList ++ e)
  match s with
  | '$' :: name =>
    match lookupVar vars name with
    | some lit => parseLit lit
    | none => .error ("undefined variable `$".toList ++ name ++ "`".toList)
  | _ => parseLit s

/-- `parse_percent`: strip the `%` suffix, trim, parse as `u8`, and require
the value to be at most 100. -/
def parsePercent (s : Str) : Except Str Nat :=
  match stripSuffixCh '%' s with
  | none => .error ("expected a percentage like `20%`, got `".toList ++ s ++ "`".toList)
  | some body =>
    let digits := trim body
    match parseU8 digits with
    | none => .error ("invalid percentage value `".toList ++ digits ++ "`".toList)
    | some n =>
      if n > 100 then .error ("percentage must be 0–100, got `".toList ++ natToStr n ++ "`".toList)
      else .ok n

/-- Rust `str::strip_suffix("deg")`. -/
def stripDeg (s : Str) : Option Str :=
  match s.reverse with
  | 'g' :: 'e' :: 'd' :: rest => some rest.reverse
  | _ => none

/-- `parse_angle`: strip the `deg` suffix, trim, parse as `i32`. -/
def parseAngle (s : Str) : Except Str Int :=
  match stripDeg s with
  | none => .error ("expected an angle like `180deg`, got `".toList ++ s ++ "`".toList)
  | some body =>
    let digits := trim body
    match parseIntStr digits with
    | none => .error ("invalid angle value `".toList ++ digits ++ "`".toList)
    | some n => .ok n

/-- `apply`: dispatch on the operation name. -/
def apply (fnName : Str) (args : List Str) (vars : VarTab) : Except Str Str :=
  if fnName = "darken".toList then do
    let a ← expectArgs fnName args 2
    let c ← resolveColor (a.headI) vars
    let p ← parsePercent (a.getD 1 [])
    .ok (rgbToHex (adjustLight (toFarver c) (-(p : ℚ) / 100)))
  else if fnName = "lighten".toList then do
    let a ← expectArgs fnName args 2
    let c ← resolveColor (a.headI) vars
    let p ← parsePercent (a.getD 1 [])
    .ok (rgbToHex (adjustLight (toFarver c) ((p : ℚ) / 100)))
  else if fnName = "saturate".toList then do
    let a ← expectArgs fnName args 2
    let c ← resolveColor (a.headI) vars
    let p ← parsePercent (a.getD 1 [])
    .ok (rgbToHex (adjustSat (toFarver c) ((p : ℚ) / 100)))
  else if fnName = "desaturate".toList then do
    let a ← expectArgs fnName args 2
    let c ← resolveColor (a.headI) vars
    let p ← parsePercent (a.getD 1 [])
    .ok (rgbToHex (adjustSat (toFarver c) (-(p : ℚ) / 100)))
  else if fnName = "tint".toList then do
    let a ← expectArgs fnName args 2
    let c ← resolveColor (a.headI) vars
    let p ← parsePercent (a.getD 1 [])
    .ok (rgbToHex (tintOp (toFarver c) p))
  else if fnName = "shade".toList then do
    let a ← expectArgs fnName args 2
    let c ← resolveColor (a.headI) vars
    let p ← parsePercent (a.getD 1 [])
    .ok (rgbToHex (shadeOp (toFarver c) p))
  else if fnName = "greyscale".toList || fnName = "grayscale".toList then do
    let a ← expectArgs fnName args 1
    let c ← resolveColor (a.headI) vars
    .ok (rgbToHex (adjustSat (toFarver c) (-1)))
  else if fnName = "spin".toList then do
    let a ← expectArgs fnName args 2
    let c ← resolveColor (a.headI) vars
    let ang ← parseAngle (a.getD 1 [])
    .ok (rgbToHex (spinOp (toFarver c) ang))
  else if fnName = "mix".toList then do
    let a ← expectArgs fnName args 3
    let c1 ← resolveColor (a.headI) vars
    let c2 ← resolveColor (a.getD 1 []) vars
    let p ← parsePercent (a.getD 2 [])
    .ok (rgbaToHex (mixOp (toFarver c1) (toFarver c2) p))
  else
    .error ("unknown color function `".toList ++ fnName ++ "`".toList)

/-- `evaluate`: trim, parse the call shape, split and trim the arguments,
dispatch. -/
def evaluate (s : Str) (vars : VarTab) : Except Str Str := do
  let s := trim s
  let (fnName, argsStr) ← parseCall s
  let args := (splitAll ',' argsStr).map trim
  apply fnName args vars

end Expr

/-! ## `src/variables.rs`: variable extraction, resolution, substitution

The `toml::Value` tree is embedded as a mutual inductive (arrays and tables
carry their own list spines so that all recursion below is structural). -/

mutual

/-- `toml::Value`. -/
inductive TomlValue where
  | str (s : Str)
  | int (n : Int)
  | float (q : ℚ)
  | bool (b : Bool)
  | arr (xs : TomlList)
  | table (kvs : TomlTable)

/-- The element spine of a `toml::Value::Array`. -/
inductive TomlList where
  | nil
  | cons (hd : TomlValue) (tl : TomlList)

/-- The entry spine of a `toml::Value::Table`. -/
inductive TomlTable where
  | nil
  | cons (key : Str) (val : TomlValue) (tl : TomlTable)

end

namespace Variables

/-- `val.strip_prefix('$')`: the referenced name of a whole-string
`$name` value. -/
def refName? (v : Str) : Option Str :=
  match v with
  | '$' :: rest => some rest
  | _ => none

/-- `is_expr`: `s.contains('(') && s.chars().next().is_some_and(|c| c.is_ascii_alphabetic())`. -/
def isExpr (s : Str) : Bool :=
  s.contains '(' && (match s with
    | c :: _ => isAsciiAlphabetic c
    | [] => false)

/-- The `format!("undefined variable `${name}` (referenced from `${key}`)")`
message of the reference-resolution loop. -/
def undefinedVarMsg (name key : Str) : Str :=
  "undefined variable `$".toList ++ name ++ "` (referenced from `$".toList ++ key ++ "`".toList ++ ")".toList

/-- One full scan of the reference-resolution loop (the body of
`for (key, val) in vars.iter_mut()`), reading from `snapshot`: each
`$name` value is replaced by `snapshot[name]` when that differs, an
unknown name is an immediate error, and the `changed` flag records
whether any value changed. -/
def passEntries (snapshot : VarTab) : VarTab → Except Str (VarTab × Bool)
  | [] => .ok ([], false)
  | (k, v) :: rest =>
    match refName? v with
    | some n =>
      match lookupVar snapshot n with
      | some r =>
        match passEntries snapshot rest with
        | .error e => .error e
        | .ok (rest', ch) =>
          if r ≠ v then .ok ((k, r) :: rest', true) else .ok ((k, v) :: rest', ch)
      | none => .error (undefinedVarMsg n k)
    | none =>
      match passEntries snapshot rest with
      | .error e => .error e
      | .ok (rest', ch) => .ok ((k, v) :: rest', ch)

/-- The value an entry holds after one scan against `snapshot`
(specification of the successful case of `passEntries`). -/
def stepVal (snapshot : VarTab) (v : Str) : Str :=
  match refName? v with
  | some n => (lookupVar snapshot n).getD v
  | none => v

/-- All entries after one successful scan against `snapshot`. -/
def passOk (snapshot : VarTab) (vars : VarTab) : VarTab :=
  vars.map (fun kv => (kv.1, stepVal snapshot kv.2))

/-- Whether one scan against `snapshot` changes any value. -/
def passChanged (snapshot : VarTab) (vars : VarTab) : Bool :=
  vars.any (fun kv => stepVal snapshot kv.2 ≠ kv.2)

/-- The `for _ in 0..=vars.len()` loop: at most `fuel` scans, stopping as
soon as a scan changes nothing; reaching the cap is not itself an error. -/
def refLoop : Nat → VarTab → Except Str VarTab
  | 0, vars => .ok vars
  | fuel + 1, vars =>
    match passEntries vars vars with
    | .error e => .error e
    | .ok (vars', changed) => if changed then refLoop fuel vars' else .ok vars'

/-- The collected `format!("`${k}`")` items for entries whose value still
starts with `$` after the loop. -/
def cyclicEntries (vars : VarTab) : List Str :=
  (vars.filter (fun kv => (refName? kv.2).isSome)).map
    (fun kv => "`$".toList ++ kv.1 ++ "`".toList)

/-- The `format!("cyclic variable references: {}", cyclic.join(", "))`
message. -/
def cyclicMsg (vars : VarTab) : Str :=
  "cyclic variable references: ".toList ++ List.intercalate (", ".toList) (cyclicEntries vars)

/-- Phase 2 of `evaluate`: replace every expression-shaped value by the
evaluator's result, looking arguments up in the post-loop `snapshot`. -/
def exprPass (snapshot : VarTab) : VarTab → Except Str VarTab
  | [] => .ok []
  | (k, v) :: rest =>
    if isExpr v then
      match Expr.evaluate v snapshot with
      | .error e => .error ("variable `".toList ++ k ++ "`: ".toList ++ e)
      | .ok r =>
        match exprPass snapshot rest with
        | .error e => .error e
        | .ok rest' => .ok ((k, r) :: rest')
    else
      match exprPass snapshot rest with
      | .error e => .error e
      | .ok rest' => .ok ((k, v) :: rest')

/-- `evaluate` of `src/variables.rs`: the reference-resolution loop with cap
`|vars| + 1`, the cyclic-reference check, then expression evaluation. -/
def evaluateVars (vars : VarTab) : Except Str VarTab :=
  match refLoop (vars.length + 1) vars with
  | .error e => .error e
  | .ok vars' =>
    if cyclicEntries vars' ≠ [] then .error (cyclicMsg vars')
    else exprPass vars' vars'

/-- The `format!("undefined variable `${name}`")` message of `substitute`. -/
def substUndefMsg (name : Str) : Str :=
  "undefined variable `$".toList ++ name ++ "`".toList

mutual

/-- `substitute`: walk the tree, replacing `$name` strings by their resolved
value and expression-shaped strings by the evaluator's result. -/
def substitute (vars : VarTab) : TomlValue → Except Str TomlValue
  | .str s =>
    match refName? s with
    | some name =>
      match lookupVar vars name with
      | some resolved => .ok (.str resolved)
      | none => .error (substUndefMsg name)
    | none =>
      if isExpr s then
        match Expr.evaluate s vars with
        | .ok r => .ok (.str r)
        | .error e => .error ("in expression `".toList ++ s ++ "`: ".toList ++ e)
      else .ok (.str s)
  | .arr xs =>
    match substituteList vars xs with
    | .error e => .error e
    | .ok xs' => .ok (.arr xs')
  | .table kvs =>
    match substituteTable vars kvs with
    | .error e => .error e
    | .ok kvs' => .ok (.table kvs')
  | .int n => .ok (.int n)
  | .float q => .ok (.float q)
  | .bool b => .ok (.bool b)

/-- Element-wise substitution in an array. -/
def substituteList (vars : VarTab) : TomlList → Except Str TomlList
  | .nil => .ok .nil
  | .cons x xs =>
    match substitute vars x with
    | .error e => .error e
    | .ok x' =>
      match substituteList vars xs with
      | .error e => .error e
      | .ok xs' => .ok (.cons x' xs')

/-- Value-wise substitution in a table. -/
def substituteTable (vars : VarTab) : TomlTable → Except Str TomlTable
  | .nil => .ok .nil
  | .cons k v rest =>
    match substitute vars v with
    | .error e => .error e
    | .ok v' =>
      match substituteTable vars rest with
      | .error e => .error e
      | .ok rest' => .ok (.cons k v' rest')

end

/-- `Map::get("variables")` on a table. -/
def lookupTable (kvs : TomlTable) (k : Str) : Option TomlValue :=
  match kvs with
  | .nil => none
  | .cons key v rest => if key = k then some v else lookupTable rest k

/-- `Map::remove("variables")` on a table (the remaining entries). -/
def removeKey (kvs : TomlTable) (k : Str) : TomlTable :=
  match kvs with
  | .nil => .nil
  | .cons key v rest =>
    if key = k then rest else .cons key v (removeKey rest k)

/-- The key/value pairs of the `[variables]` table, each required to be a
string value. -/
def collectVars : TomlTable → Except Str VarTab
  | .nil => .ok []
  | .cons key v rest =>
    match v with
    | .str s =>
      match collectVars rest with
      | .error e => .error e
      | .ok tail => .ok ((key, s) :: tail)
    | _ => .error ("variable `".toList ++ key ++ "` must be a string value".toList)

/-- `extract`: remove `[variables]` from the root table and return its
entries; a non-table root or an absent table yields an empty result. -/
def extract (root : TomlValue) : Except Str (VarTab × TomlValue)  :=
  match root with
  | .table kvs =>
    match lookupTable kvs ("variables".toList) with
    | none => .ok ([], root)
    | some v =>
      let rest := removeKey kvs ("variables".toList)
      match v with
      | .table ventries =>
        match collectVars ventries with
        | .error e => .error e
        | .ok vars => .ok (vars, .table rest)
      | _ => .error ("[variables] must be a TOML table".toList)
  | _ => .ok ([], root)

/-- `resolve` of `src/variables.rs`: extract, short-circuit on an empty
table, evaluate, substitute. -/
def resolveDoc (root : TomlValue) : Except Str TomlValue :=
  match extract root with
  | .error e => .error e
  | .ok (vars, root') =>
    if vars.isEmpty then .ok root'
    else
      match evaluateVars vars with
      | .error e => .error e
      | .ok vars' => substitute vars' root'

/-! ### The reference graph

Definitions used to state the cycle claims: the graph on variable names in
which `x` steps to `y` when `x`'s value is exactly `$y`. -/

/-- One step in the reference graph of a table. -/
def refStep (vars : VarTab) (x : Str) : Option Str :=
  (lookupVar vars x).bind refName?

/-- `n`-fold iteration of `refStep`, absorbing at names that do not step. -/
def iterRef (vars : VarTab) : Nat → Str → Option Str
  | 0, x => some x
  | n + 1, x => (refStep vars x).bind (iterRef vars n)

/-- The table's `$name` references contain a cycle: some name steps back to
itself in one or more steps. -/
def HasCycle (vars : VarTab) : Prop :=
  ∃ x m, 0 < m ∧ iterRef vars m x = some x

/-- Every `$name` value in the table references a name the table defines. -/
def allRefsDefined (vars : VarTab) : Bool :=
  vars.all (fun kv =>
    match refName? kv.2 with
    | some n => containsKey vars n
    | none => true)

end Variables

/-! ## `src/style/mod.rs`: shared style machinery

Gradients (`BackgroundRaw::Gradient`) are deserialization-only machinery not
reachable from any widget section's fields (every section stores colors as
`Option<HexColor>`), so backgrounds below always carry the `Color` variant. -/

namespace Style

/-- `iced_core::border::Radius`. -/
structure RadiusQ where
  top_left : ℚ
  top_right : ℚ
  bottom_right : ℚ
  bottom_left : ℚ
  deriving DecidableEq, Repr

/-- A uniform radius (`impl From<f32> for Radius`). -/
def RadiusQ.uniform (v : ℚ) : RadiusQ := ⟨v, v, v, v⟩

/-- `RadiusRaw`: one uniform value or four per-corner values. -/
inductive RadiusRaw where
  | uniform (v : ℚ)
  | perCorner (tl tr br bl : ℚ)
  deriving DecidableEq, Repr

/-- `RadiusRaw::into_radius`. -/
def RadiusRaw.into_radius : RadiusRaw → RadiusQ
  | .uniform v => RadiusQ.uniform v
  | .perCorner tl tr br bl => ⟨tl, tr, br, bl⟩

/-- `iced_core::Border`. -/
structure BorderQ where
  color : ColorQ
  width : ℚ
  radius : RadiusQ
  deriving DecidableEq, Repr

/-- `iced_core::Shadow` (`offset` flattened to its two components). -/
structure ShadowQ where
  color : ColorQ
  offset_x : ℚ
  offset_y : ℚ
  blur_radius : ℚ
  deriving DecidableEq, Repr

/-- `iced_core::Background` as produced by the widget sections (always the
`Color` variant; see the note above). -/
inductive BackgroundQ where
  | color (c : ColorQ)
  deriving DecidableEq, Repr

/-- `resolve_border`: fall back to transparent color, width 0, radius 0. -/
def resolve_border (width : Option ℚ) (color : Option ColorQ) (radius : Option RadiusRaw) :
    BorderQ :=
  { color := color.getD colorTransparent
    width := width.getD 0
    radius := (radius.map RadiusRaw.into_radius).getD (RadiusQ.uniform 0) }

/-- `resolve_shadow`: fall back to transparent color and zero geometry. -/
def resolve_shadow (color : Option ColorQ) (offset_x offset_y blur_radius : Option ℚ) :
    ShadowQ :=
  { color := color.getD colorTransparent
    offset_x := offset_x.getD 0
    offset_y := offset_y.getD 0
    blur_radius := blur_radius.getD 0 }

end Style

/-! ## `src/style/button.rs` -/

namespace Button

open Style

/-- `ButtonFieldsRaw` (every field `Option`, serde-defaulted to `None`). -/
structure ButtonFieldsRaw where
  background : Option ColorQ := none
  text_color : Option ColorQ := none
  border_width : Option ℚ := none
  border_color : Option ColorQ := none
  border_radius : Option RadiusRaw := none
  shadow_color : Option ColorQ := none
  shadow_offset_x : Option ℚ := none
  shadow_offset_y : Option ℚ := none
  shadow_blur_radius : Option ℚ := none
  deriving DecidableEq, Repr

/-- The expansion of `impl_merge!(ButtonFieldsRaw { ... })`: per field,
`over`'s value if present, else `self`'s. -/
def ButtonFieldsRaw.merge (self over : ButtonFieldsRaw) : ButtonFieldsRaw where
  background := over.background.or self.background
  text_color := over.text_color.or self.text_color
  border_width := over.border_width.or self.border_width
  border_color := over.border_color.or self.border_color
  border_radius := over.border_radius.or self.border_radius
  shadow_color := over.shadow_color.or self.shadow_color
  shadow_offset_x := over.shadow_offset_x.or self.shadow_offset_x
  shadow_offset_y := over.shadow_offset_y.or self.shadow_offset_y
  shadow_blur_radius := over.shadow_blur_radius.or self.shadow_blur_radius

/-- `ButtonSection` (base fields flattened, optional status sub-tables). -/
structure ButtonSection where
  base : ButtonFieldsRaw := {}
  hovered : Option ButtonFieldsRaw := none
  pressed : Option ButtonFieldsRaw := none
  disabled : Option ButtonFieldsRaw := none

/-- `ButtonAppearance`. -/
structure ButtonAppearance where
  background : Option BackgroundQ
  text_color : ColorQ
  border : BorderQ
  shadow : ShadowQ
  deriving DecidableEq, Repr

/-- `into_appearance`. -/
def into_appearance (f : ButtonFieldsRaw) : ButtonAppearance where
  background := f.background.map BackgroundQ.color
  text_color := f.text_color.getD colorBlack
  border := resolve_border f.border_width f.border_color f.border_radius
  shadow := resolve_shadow f.shadow_color f.shadow_offset_x f.shadow_offset_y f.shadow_blur_radius

/-- `resolve_status`. -/
def resolve_status (base : ButtonFieldsRaw) (status : Option ButtonFieldsRaw) : ButtonAppearance :=
  match status with
  | some over => into_appearance (base.merge over)
  | none => into_appearance base

/-- `ButtonStyle`. -/
structure ButtonStyle where
  active : ButtonAppearance
  hovered : ButtonAppearance
  pressed : ButtonAppearance
  disabled : ButtonAppearance
  deriving DecidableEq, Repr

/-- `ButtonSection::resolve`. -/
def ButtonSection.resolve (s : ButtonSection) : ButtonStyle where
  active := into_appearance s.base
  hovered := resolve_status s.base s.hovered
  pressed := resolve_status s.base s.pressed
  disabled := resolve_status s.base s.disabled

/-- The status variants a button style is queried with. -/
inductive ButtonStatus where
  | active
  | hovered
  | pressed
  | disabled
  deriving DecidableEq, Repr

/-- The accessor family of `ButtonStyle` (one appearance per status). -/
def ButtonStyle.get (s : ButtonStyle) : ButtonStatus → ButtonAppearance
  | .active => s.active
  | .hovered => s.hovered
  | .pressed => s.pressed
  | .disabled => s.disabled

end Button

/-! ## `src/style/checkbox.rs` -/

namespace Checkbox

open Style

/-- `CheckboxFieldsRaw`. -/
structure CheckboxFieldsRaw where
  background : Option ColorQ := none
  icon_color : Option ColorQ := none
  border_width : Option ℚ := none
  border_color : Option ColorQ := none
  border_radius : Option RadiusRaw := none
  text_color : Option ColorQ := none
  deriving DecidableEq, Repr

/-- The expansion of `impl_merge!(CheckboxFieldsRaw { ... })`. -/
def CheckboxFieldsRaw.merge (self over : CheckboxFieldsRaw) : CheckboxFieldsRaw where
  background := over.background.or self.background
  icon_color := over.icon_color.or self.icon_color
  border_width := over.border_width.or self.border_width
  border_color := over.border_color.or self.border_color
  border_radius := over.border_radius.or self.border_radius
  text_color := over.text_color.or self.text_color

/-- `CheckboxSection`. -/
structure CheckboxSection where
  base : CheckboxFieldsRaw := {}
  checked : Option CheckboxFieldsRaw := none
  hovered : Option CheckboxFieldsRaw := none
  disabled : Option CheckboxFieldsRaw := none
  hovered_checked : Option CheckboxFieldsRaw := none
  disabled_checked : Option CheckboxFieldsRaw := none

/-- `iced_widget::checkbox::Style`. -/
structure CheckboxNative where
  background : BackgroundQ
  icon_color : ColorQ
  border : BorderQ
  text_color : Option ColorQ
  deriving DecidableEq, Repr

/-- `into_native`. -/
def into_native (f : CheckboxFieldsRaw) : CheckboxNative where
  background := .color (f.background.getD colorTransparent)
  icon_color := f.icon_color.getD colorBlack
  border := resolve_border f.border_width f.border_color f.border_radius
  text_color := f.text_color

/-- The four-layer cascade `base -> state -> status -> combined`. -/
def cascade (base : CheckboxFieldsRaw) (state status combined : Option CheckboxFieldsRaw) :
    CheckboxNative :=
  let r1 := match state with
    | some s => base.merge s
    | none => base
  let r2 := match status with
    | some s => r1.merge s
    | none => r1
  let r3 := match combined with
    | some c => r2.merge c
    | none => r2
  into_native r3

/-- `CheckboxStyle`: 3 statuses × 2 states. -/
structure CheckboxStyle where
  active_unchecked : CheckboxNative
  active_checked : CheckboxNative
  hovered_unchecked : CheckboxNative
  hovered_checked : CheckboxNative
  disabled_unchecked : CheckboxNative
  disabled_checked : CheckboxNative
  deriving DecidableEq, Repr

/-- `CheckboxSection::resolve`. -/
def CheckboxSection.resolve (s : CheckboxSection) : CheckboxStyle where
  active_unchecked := into_native s.base
  active_checked := cascade s.base s.checked none none
  hovered_unchecked := cascade s.base none s.hovered none
  hovered_checked := cascade s.base s.checked s.hovered s.hovered_checked
  disabled_unchecked := cascade s.base none s.disabled none
  disabled_checked := cascade s.base s.checked s.disabled s.disabled_checked

/-- `iced_widget::checkbox::Status`. -/
inductive CheckboxStatus where
  | active (is_checked : Bool)
  | hovered (is_checked : Bool)
  | disabled (is_checked : Bool)
  deriving DecidableEq, Repr

/-- The closure returned by `CheckboxStyle::style_fn`. -/
def CheckboxStyle.style_fn (s : CheckboxStyle) : CheckboxStatus → CheckboxNative
  | .active is_checked => if is_checked then s.active_checked else s.active_unchecked
  | .hovered is_checked => if is_checked then s.hovered_checked else s.hovered_unchecked
  | .disabled is_checked => if is_checked then s.disabled_checked else s.disabled_unchecked

end Checkbox

/-! ## `src/style/container.rs` -/

namespace Container

open Style

/-- `ContainerFieldsRaw`. -/
structure ContainerFieldsRaw where
  background : Option ColorQ := none
  text_color : Option ColorQ := none
  border_width : Option ℚ := none
  border_color : Option ColorQ := none
  border_radius : Option RadiusRaw := none
  shadow_color : Option ColorQ := none
  shadow_offset_x : Option ℚ := none
  shadow_offset_y : Option ℚ := none
  shadow_blur_radius : Option ℚ := none
  deriving DecidableEq, Repr

/-- The expansion of `impl_merge!(ContainerFieldsRaw { ... })`. -/
def ContainerFieldsRaw.merge (self over : ContainerFieldsRaw) : ContainerFieldsRaw where
  background := over.background.or self.background
  text_color := over.text_color.or self.text_color
  border_width := over.border_width.or self.border_width
  border_color := over.border_color.or self.border_color
  border_radius := over.border_radius.or self.border_radius
  shadow_color := over.shadow_color.or self.shadow_color
  shadow_offset_x := over.shadow_offset_x.or self.shadow_offset_x
  shadow_offset_y := over.shadow_offset_y.or self.shadow_offset_y
  shadow_blur_radius := over.shadow_blur_radius.or self.shadow_blur_radius

/-- `ContainerSection`: base fields only, no status sub-tables. -/
structure ContainerSection where
  base : ContainerFieldsRaw := {}

/-- `ContainerAppearance`. -/
structure ContainerAppearance where
  background : Option BackgroundQ
  text_color : Option ColorQ
  border : BorderQ
  shadow : ShadowQ
  deriving DecidableEq, Repr

/-- `into_appearance`. -/
def into_appearance (f : ContainerFieldsRaw) : ContainerAppearance where
  background := f.background.map BackgroundQ.color
  text_color := f.text_color
  border := resolve_border f.border_width f.border_color f.border_radius
  shadow := resolve_shadow f.shadow_color f.shadow_offset_x f.shadow_offset_y f.shadow_blur_radius

/-- `ContainerStyle`. -/
structure ContainerStyle where
  appearance : ContainerAppearance
  deriving DecidableEq, Repr

/-- `ContainerSection::resolve`. -/
def ContainerSection.resolve (s : ContainerSection) : ContainerStyle :=
  ⟨into_appearance s.base⟩

end Container

/-! ## `src/style/text_input.rs` -/

namespace TextInput

open Style

/-- `TextInputFieldsRaw`. -/
structure TextInputFieldsRaw where
  background : Option ColorQ := none
  border_width : Option ℚ := none
  border_color : Option ColorQ := none
  border_radius : Option RadiusRaw := none
  icon_color : Option ColorQ := none
  placeholder_color : Option ColorQ := none
  value_color : Option ColorQ := none
  selection_color : Option ColorQ := none
  deriving DecidableEq, Repr

/-- The expansion of `impl_merge!(TextInputFieldsRaw { ... })`. -/
def TextInputFieldsRaw.merge (self over : TextInputFieldsRaw) : TextInputFieldsRaw where
  background := over.background.or self.background
  border_width := over.border_width.or self.border_width
  border_color := over.border_color.or self.border_color
  border_radius := over.border_radius.or self.border_radius
  icon_color := over.icon_color.or self.icon_color
  placeholder_color := over.placeholder_color.or self.placeholder_color
  value_color := over.value_color.or self.value_color
  selection_color := over.selection_color.or self.selection_color

/-- `TextInputSection`. -/
structure TextInputSection where
  base : TextInputFieldsRaw := {}
  focused : Option TextInputFieldsRaw := none
  disabled : Option TextInputFieldsRaw := none

/-- `iced_widget::text_input::Style`. -/
structure TextInputNative where
  background : BackgroundQ
  border : BorderQ
  icon : ColorQ
  placeholder : ColorQ
  value : ColorQ
  selection : ColorQ
  deriving DecidableEq, Repr

/-- `into_native`.  `0.3` denotes the selection alpha literal of the source
(embedded exactly as `3/10`). -/
def into_native (f : TextInputFieldsRaw) : TextInputNative where
  background := .color (f.background.getD colorTransparent)
  border := resolve_border f.border_width f.border_color f.border_radius
  icon := f.icon_color.getD colorBlack
  placeholder := f.placeholder_color.getD (fromRgba8 128 128 128 1)
  value := f.value_color.getD colorBlack
  selection := f.selection_color.getD (fromRgba8 51 153 255 (3 / 10))

/-- `resolve_status`. -/
def resolve_status (base : TextInputFieldsRaw) (status : Option TextInputFieldsRaw) :
    TextInputNative :=
  match status with
  | some over => into_native (base.merge over)
  | none => into_native base

/-- `TextInputStyle`. -/
structure TextInputStyle where
  active : TextInputNative
  focused : TextInputNative
  disabled : TextInputNative
  deriving DecidableEq, Repr

/-- `TextInputSection::resolve`. -/
def TextInputSection.resolve (s : TextInputSection) : TextInputStyle where
  active := into_native s.base
  focused := resolve_status s.base s.focused
  disabled := resolve_status s.base s.disabled

/-- `iced_widget::text_input::Status`. -/
inductive TextInputStatus where
  | active
  | hovered
  | focused (is_hovered : Bool)
  | disabled
  deriving DecidableEq, Repr

/-- The closure returned by `TextInputStyle::style_fn` (`Hovered` maps to the
active style). -/
def TextInputStyle.style_fn (s : TextInputStyle) : TextInputStatus → TextInputNative
  | .active => s.active
  | .hovered => s.active
  | .focused _ => s.focused
  | .disabled => s.disabled

end TextInput

/-! ## `src/style/toggler.rs` -/

namespace Toggler

/-- `TogglerFieldsRaw`. -/
structure TogglerFieldsRaw where
  background : Option ColorQ := none
  foreground : Option ColorQ := none
  background_border_width : Option ℚ := none
  background_border_color : Option ColorQ := none
  foreground_border_width : Option ℚ := none
  foreground_border_color : Option ColorQ := none
  border_radius : Option ℚ := none
  text_color : Option ColorQ := none
  deriving DecidableEq, Repr

/-- The expansion of `impl_merge!(TogglerFieldsRaw { ... })`. -/
def TogglerFieldsRaw.merge (self over : TogglerFieldsRaw) : TogglerFieldsRaw where
  background := over.background.or self.background
  foreground := over.foreground.or self.foreground
  background_border_width := over.background_border_width.or self.background_border_width
  background_border_color := over.background_border_color.or self.background_border_color
  foreground_border_width := over.foreground_border_width.or self.foreground_border_width
  foreground_border_color := over.foreground_border_color.or self.foreground_border_color
  border_radius := over.border_radius.or self.border_radius
  text_color := over.text_color.or self.text_color

/-- `TogglerSection`. -/
structure TogglerSection where
  base : TogglerFieldsRaw := {}
  toggled : Option TogglerFieldsRaw := none
  hovered : Option TogglerFieldsRaw := none
  disabled : Option TogglerFieldsRaw := none
  hovered_toggled : Option TogglerFieldsRaw := none
  disabled_toggled : Option TogglerFieldsRaw := none

/-- `TogglerAppearance`. -/
structure TogglerAppearance where
  background : ColorQ
  foreground : ColorQ
  background_border_width : ℚ
  background_border_color : ColorQ
  foreground_border_width : ℚ
  foreground_border_color : ColorQ
  border_radius : Option ℚ
  text_color : Option ColorQ
  deriving DecidableEq, Repr

/-- `into_appearance`. -/
def into_appearance (f : TogglerFieldsRaw) : TogglerAppearance where
  background := f.background.getD colorTransparent
  foreground := f.foreground.getD colorBlack
  background_border_width := f.background_border_width.getD 0
  background_border_color := f.background_border_color.getD colorTransparent
  foreground_border_width := f.foreground_border_width.getD 0
  foreground_border_color := f.foreground_border_color.getD colorTransparent
  border_radius := f.border_radius
  text_color := f.text_color

/-- The four-layer cascade `base -> state -> status -> combined`. -/
def cascade (base : TogglerFieldsRaw) (state status combined : Option TogglerFieldsRaw) :
    TogglerAppearance :=
  let r1 := match state with
    | some s => base.merge s
    | none => base
  let r2 := match status with
    | some s => r1.merge s
    | none => r1
  let r3 := match combined with
    | some c => r2.merge c
    | none => r2
  into_appearance r3

/-- `TogglerStyle`: 3 statuses × 2 states. -/
structure TogglerStyle where
  active_untoggled : TogglerAppearance
  active_toggled : TogglerAppearance
  hovered_untoggled : TogglerAppearance
  hovered_toggled : TogglerAppearance
  disabled_untoggled : TogglerAppearance
  disabled_toggled : TogglerAppearance
  deriving DecidableEq, Repr

/-- `TogglerSection::resolve`. -/
def TogglerSection.resolve (s : TogglerSection) : TogglerStyle where
  active_untoggled := into_appearance s.base
  active_toggled := cascade s.base s.toggled none none
  hovered_untoggled := cascade s.base none s.hovered none
  hovered_toggled := cascade s.base s.toggled s.hovered s.hovered_toggled
  disabled_untoggled := cascade s.base none s.disabled none
  disabled_toggled := cascade s.base s.toggled s.disabled s.disabled_toggled

/-- The accessor family `active`/`hovered`/`disabled`, keyed by the toggled
state. -/
inductive TogglerStatus where
  | active (is_toggled : Bool)
  | hovered (is_toggled : Bool)
  | disabled (is_toggled : Bool)
  deriving DecidableEq, Repr

/-- The `TogglerStyle` accessors. -/
def TogglerStyle.get (s : TogglerStyle) : TogglerStatus → TogglerAppearance
  | .active is_toggled => if is_toggled then s.active_toggled else s.active_untoggled
  | .hovered is_toggled => if is_toggled then s.hovered_toggled else s.hovered_untoggled
  | .disabled is_toggled => if is_toggled then s.disabled_toggled else s.disabled_untoggled

end Toggler

/-! ## `src/style/slider.rs` -/

namespace Slider

open Style

/-- `HandleShapeKindRaw`. -/
inductive HandleShapeKindRaw where
  | circle
  | rectangle
  deriving DecidableEq, Repr

/-- `SliderFieldsRaw`. -/
structure SliderFieldsRaw where
  rail_color_1 : Option ColorQ := none
  rail_color_2 : Option ColorQ := none
  rail_width : Option ℚ := none
  rail_border_radius : Option RadiusRaw := none
  handle_shape : Option HandleShapeKindRaw := none
  handle_radius : Option ℚ := none
  handle_width : Option ℚ := none
  handle_border_radius : Option RadiusRaw := none
  handle_background : Option ColorQ := none
  handle_border_width : Option ℚ := none
  handle_border_color : Option ColorQ := none
  deriving DecidableEq, Repr

/-- The expansion of `impl_merge!(SliderFieldsRaw { ... })`. -/
def SliderFieldsRaw.merge (self over : SliderFieldsRaw) : SliderFieldsRaw where
  rail_color_1 := over.rail_color_1.or self.rail_color_1
  rail_color_2 := over.rail_color_2.or self.rail_color_2
  rail_width := over.rail_width.or self.rail_width
  rail_border_radius := over.rail_border_radius.or self.rail_border_radius
  handle_shape := over.handle_shape.or self.handle_shape
  handle_radius := over.handle_radius.or self.handle_radius
  handle_width := over.handle_width.or self.handle_width
  handle_border_radius := over.handle_border_radius.or self.handle_border_radius
  handle_background := over.handle_background.or self.handle_background
  handle_border_width := over.handle_border_width.or self.handle_border_width
  handle_border_color := over.handle_border_color.or self.handle_border_color

/-- `SliderSection`. -/
structure SliderSection where
  base : SliderFieldsRaw := {}
  hovered : Option SliderFieldsRaw := none
  dragged : Option SliderFieldsRaw := none

/-- Rust `as u16` applied to a non-NaN `f32`: truncate toward zero,
saturating to `0..=65535`. -/
def u16OfQ (x : ℚ) : Nat :=
  if x < 0 then 0 else min 65535 ⌊x⌋.toNat

/-- `HandleShapeKind` (mirrors `iced_widget::slider::HandleShape`). -/
inductive HandleShapeKind where
  | circle (radius : ℚ)
  | rectangle (width : Nat) (border_radius : RadiusQ)
  deriving DecidableEq, Repr

/-- `SliderAppearance`. -/
structure SliderAppearance where
  rail_color_1 : ColorQ
  rail_color_2 : ColorQ
  rail_width : ℚ
  rail_border_radius : RadiusQ
  handle_shape : HandleShapeKind
  handle_background : BackgroundQ
  handle_border : BorderQ
  deriving DecidableEq, Repr

/-- `into_appearance`. -/
def into_appearance (f : SliderFieldsRaw) : SliderAppearance where
  rail_color_1 := f.rail_color_1.getD colorBlack
  rail_color_2 := f.rail_color_2.getD colorTransparent
  rail_width := f.rail_width.getD 4
  rail_border_radius := (f.rail_border_radius.map RadiusRaw.into_radius).getD (RadiusQ.uniform 0)
  handle_shape :=
    match f.handle_shape.getD HandleShapeKindRaw.circle with
    | .circle => .circle (f.handle_radius.getD 7)
    | .rectangle =>
      .rectangle (u16OfQ (f.handle_width.getD 8))
        ((f.handle_border_radius.map RadiusRaw.into_radius).getD (RadiusQ.uniform 2))
  handle_background := .color (f.handle_background.getD colorBlack)
  handle_border :=
    { color := f.handle_border_color.getD colorTransparent
      width := f.handle_border_width.getD 0
      radius := RadiusQ.uniform 0 }

/-- `resolve_status`. -/
def resolve_status (base : SliderFieldsRaw) (status : Option SliderFieldsRaw) : SliderAppearance :=
  match status with
  | some over => into_appearance (base.merge over)
  | none => into_appearance base

/-- `SliderStyle`. -/
structure SliderStyle where
  active : SliderAppearance
  hovered : SliderAppearance
  dragged : SliderAppearance
  deriving DecidableEq, Repr

/-- `SliderSection::resolve`. -/
def SliderSection.resolve (s : SliderSection) : SliderStyle where
  active := into_appearance s.base
  hovered := resolve_status s.base s.hovered
  dragged := resolve_status s.base s.dragged

/-- The status variants a slider style is queried with. -/
inductive SliderStatus where
  | active
  | hovered
  | dragged
  deriving DecidableEq, Repr

/-- The `SliderStyle` accessors. -/
def SliderStyle.get (s : SliderStyle) : SliderStatus → SliderAppearance
  | .active => s.active
  | .hovered => s.hovered
  | .dragged => s.dragged

end Slider

/-! ## `src/style/progress_bar.rs` -/

namespace ProgressBar

open Style

/-- `ProgressBarFieldsRaw`. -/
structure ProgressBarFieldsRaw where
  background : Option ColorQ := none
  bar : Option ColorQ := none
  border_width : Option ℚ := none
  border_color : Option ColorQ := none
  border_radius : Option RadiusRaw := none
  deriving DecidableEq, Repr

/-- The expansion of `impl_merge!(ProgressBarFieldsRaw { ... })`. -/
def ProgressBarFieldsRaw.merge (self over : ProgressBarFieldsRaw) : ProgressBarFieldsRaw where
  background := over.background.or self.background
  bar := over.bar.or self.bar
  border_width := over.border_width.or self.border_width
  border_color := over.border_color.or self.border_color
  border_radius := over.border_radius.or self.border_radius

/-- `ProgressBarSection`: base fields only. -/
structure ProgressBarSection where
  base : ProgressBarFieldsRaw := {}

/-- `ProgressBarAppearance`. -/
structure ProgressBarAppearance where
  background : BackgroundQ
  bar : BackgroundQ
  border : BorderQ
  deriving DecidableEq, Repr

/-- `into_appearance`. -/
def into_appearance (f : ProgressBarFieldsRaw) : ProgressBarAppearance where
  background := .color (f.background.getD colorTransparent)
  bar := .color (f.bar.getD colorBlack)
  border := resolve_border f.border_width f.border_color f.border_radius

/-- `ProgressBarStyle`. -/
structure ProgressBarStyle where
  appearance : ProgressBarAppearance
  deriving DecidableEq, Repr

/-- `ProgressBarSection::resolve`. -/
def ProgressBarSection.resolve (s : ProgressBarSection) : ProgressBarStyle :=
  ⟨into_appearance s.base⟩

end ProgressBar

/-! ## `src/style/radio.rs` -/

namespace Radio

/-- `RadioFieldsRaw`. -/
structure RadioFieldsRaw where
  background : Option ColorQ := none
  dot_color : Option ColorQ := none
  border_width : Option ℚ := none
  border_color : Option ColorQ := none
  text_color : Option ColorQ := none
  deriving DecidableEq, Repr

/-- The expansion of `impl_merge!(RadioFieldsRaw { ... })`. -/
def RadioFieldsRaw.merge (self over : RadioFieldsRaw) : RadioFieldsRaw where
  background := over.background.or self.background
  dot_color := over.dot_color.or self.dot_color
  border_width := over.border_width.or self.border_width
  border_color := over.border_color.or self.border_color
  text_color := over.text_color.or self.text_color

/-- `RadioSection`. -/
structure RadioSection where
  base : RadioFieldsRaw := {}
  selected : Option RadioFieldsRaw := none
  hovered : Option RadioFieldsRaw := none
  disabled : Option RadioFieldsRaw := none
  hovered_selected : Option RadioFieldsRaw := none
  disabled_selected : Option RadioFieldsRaw := none

/-- `RadioAppearance`. -/
structure RadioAppearance where
  background : ColorQ
  dot_color : ColorQ
  border_width : ℚ
  border_color : ColorQ
  text_color : Option ColorQ
  deriving DecidableEq, Repr

/-- `into_appearance`. -/
def into_appearance (f : RadioFieldsRaw) : RadioAppearance where
  background := f.background.getD colorTransparent
  dot_color := f.dot_color.getD colorBlack
  border_width := f.border_width.getD 1
  border_color := f.border_color.getD colorBlack
  text_color := f.text_color

/-- The four-layer cascade `base -> state -> status -> combined`. -/
def cascade (base : RadioFieldsRaw) (state status combined : Option RadioFieldsRaw) :
    RadioAppearance :=
  let r1 := match state with
    | some s => base.merge s
    | none => base
  let r2 := match status with
    | some s => r1.merge s
    | none => r1
  let r3 := match combined with
    | some c => r2.merge c
    | none => r2
  into_appearance r3

/-- `RadioStyle`: 3 statuses × 2 states. -/
structure RadioStyle where
  active_unselected : RadioAppearance
  active_selected : RadioAppearance
  hovered_unselected : RadioAppearance
  hovered_selected : RadioAppearance
  disabled_unselected : RadioAppearance
  disabled_selected : RadioAppearance
  deriving DecidableEq, Repr

/-- `RadioSection::resolve`. -/
def RadioSection.resolve (s : RadioSection) : RadioStyle where
  active_unselected := into_appearance s.base
  active_selected := cascade s.base s.selected none none
  hovered_unselected := cascade s.base none s.hovered none
  hovered_selected := cascade s.base s.selected s.hovered s.hovered_selected
  disabled_unselected := cascade s.base none s.disabled none
  disabled_selected := cascade s.base s.selected s.disabled s.disabled_selected

/-- The accessor family `active`/`hovered`/`disabled`, keyed by the selected
state. -/
inductive RadioStatus where
  | active (is_selected : Bool)
  | hovered (is_selected : Bool)
  | disabled (is_selected : Bool)
  deriving DecidableEq, Repr

/-- The `RadioStyle` accessors. -/
def RadioStyle.get (s : RadioStyle) : RadioStatus → RadioAppearance
  | .active is_selected => if is_selected then s.active_selected else s.active_unselected
  | .hovered is_selected => if is_selected then s.hovered_selected else s.hovered_unselected
  | .disabled is_selected => if is_selected then s.disabled_selected else s.disabled_unselected

end Radio

/-! ## `src/config.rs` and `src/lib.rs`: theme assembly -/

namespace Config

/-- `PaletteRaw`: the six required semantic palette colors. -/
structure PaletteRaw where
  background : ColorQ
  text : ColorQ
  primary : ColorQ
  success : ColorQ
  warning : ColorQ
  danger : ColorQ
  deriving DecidableEq, Repr

/-- `iced_core::theme::Palette`. -/
structure Palette where
  background : ColorQ
  text : ColorQ
  primary : ColorQ
  success : ColorQ
  warning : ColorQ
  danger : ColorQ
  deriving DecidableEq, Repr

/-- The serde mirror of `iced_core::font::Weight`. -/
inductive FontWeight where
  | thin | extraLight | light | normal | medium | semibold | bold | extraBold | black
  deriving DecidableEq, Repr

/-- The serde mirror of `iced_core::font::Style`. -/
inductive FontStyle where
  | normal | italic | oblique
  deriving DecidableEq, Repr

/-- The serde mirror of `iced_core::font::Stretch`. -/
inductive FontStretch where
  | ultraCondensed | extraCondensed | condensed | semiCondensed | normal
  | semiExpanded | expanded | extraExpanded | ultraExpanded
  deriving DecidableEq, Repr

/-- `FontRaw`: all fields optional. -/
structure FontRaw where
  family : Option Str := none
  weight : Option FontWeight := none
  style : Option FontStyle := none
  stretch : Option FontStretch := none

/-- `iced_core::font::Family` (the `Name` case carries the leaked string). -/
inductive FontFamily where
  | sansSerif | serif | monospace | cursive | fantasy
  | name (s : Str)
  deriving DecidableEq, Repr

/-- `iced_core::font::Font` (weight/style/stretch kept in their mirror
enums, whose conversion to the iced enums is the identity on variants). -/
structure Font where
  family : FontFamily
  weight : FontWeight
  stretch : FontStretch
  style : FontStyle
  deriving DecidableEq, Repr

/-- `build_font`: map the generic family names, defaulting missing fields. -/
def build_font (raw : FontRaw) : Font where
  family :=
    match raw.family with
    | none => .sansSerif
    | some f =>
      if f = "sans-serif".toList then .sansSerif
      else if f = "serif".toList then .serif
      else if f = "monospace".toList then .monospace
      else if f = "cursive".toList then .cursive
      else if f = "fantasy".toList then .fantasy
      else .name f
  weight := raw.weight.getD .normal
  stretch := raw.stretch.getD .normal
  style := raw.style.getD .normal

/-- `ThemeRaw`: the raw top-level document after variable resolution. -/
structure ThemeRaw where
  name : Option Str := none
  palette : PaletteRaw
  font : Option FontRaw := none
  button : Option Button.ButtonSection := none
  container : Option Container.ContainerSection := none
  text_input : Option TextInput.TextInputSection := none
  checkbox : Option Checkbox.CheckboxSection := none
  toggler : Option Toggler.TogglerSection := none
  slider : Option Slider.SliderSection := none
  progress_bar : Option ProgressBar.ProgressBarSection := none
  radio : Option Radio.RadioSection := none

/-- `ThemeConfig` of `src/lib.rs` (the `theme` field of the source wraps the
palette in an `iced` `Theme`; the palette is its content). -/
structure ThemeConfig where
  name : Str
  palette : Palette
  font : Option Font
  button : Option Button.ButtonStyle
  container : Option Container.ContainerStyle
  text_input : Option TextInput.TextInputStyle
  checkbox : Option Checkbox.CheckboxStyle
  toggler : Option Toggler.TogglerStyle
  slider : Option Slider.SliderStyle
  progress_bar : Option ProgressBar.ProgressBarStyle
  radio : Option Radio.RadioStyle

/-- `impl TryFrom<ThemeRaw> for ThemeConfig` (its body has no failure
path, so the embedding is total). -/
def themeFromRaw (raw : ThemeRaw) : ThemeConfig where
  name := raw.name.getD ("Custom".toList)
  palette :=
    { background := raw.palette.background
      text := raw.palette.text
      primary := raw.palette.primary
      success := raw.palette.success
      warning := raw.palette.warning
      danger := raw.palette.danger }
  font := raw.font.map build_font
  button := raw.button.map Button.ButtonSection.resolve
  container := raw.container.map Container.ContainerSection.resolve
  text_input := raw.text_input.map TextInput.TextInputSection.resolve
  checkbox := raw.checkbox.map Checkbox.CheckboxSection.resolve
  toggler := raw.toggler.map Toggler.TogglerSection.resolve
  slider := raw.slider.map Slider.SliderSection.resolve
  progress_bar := raw.progress_bar.map ProgressBar.ProgressBarSection.resolve
  radio := raw.radio.map Radio.RadioSection.resolve

end Config

/-! ## Verification-layer definitions

Definitions used only to *state* the claims and organise their proofs
(they embed no source code themselves). -/

namespace Variables

/-- The key list of a table. -/
def keysOf (vars : VarTab) : List Str := vars.map Prod.fst

/-- The value list of a table. -/
def valuesOf (vars : VarTab) : List Str := vars.map Prod.snd

/-- The length of a value's reference chain through the original table
(`none` when the fuel runs out or a reference is undefined): a literal has
rank 0, and `$n` has rank one more than `n`'s original value. -/
def rankV (vars₀ : VarTab) : Nat → Str → Option Nat
  | 0, v => if (refName? v).isNone then some 0 else none
  | fuel + 1, v =>
    match refName? v with
    | none => some 0
    | some n =>
      match lookupVar vars₀ n with
      | none => none
      | some w => (rankV vars₀ fuel w).map (· + 1)

/-- The chain rank of a variable's own value (with the fuel that suffices
for every acyclic fully-defined table). -/
def rank0 (vars₀ : VarTab) (x : Str) : Nat :=
  (rankV vars₀ vars₀.length ((lookupVar vars₀ x).getD [])).getD 0

/-- Key and value sets preserved relative to the original table: the
invariant every state of the resolution loop satisfies. -/
def GoodState (vars₀ cur : VarTab) : Prop :=
  keysOf cur = keysOf vars₀ ∧ ∀ v ∈ valuesOf cur, v ∈ valuesOf vars₀

/-- The rank bound after `k` scans: every entry's value has a chain rank of
at most its variable's original rank minus `k`. -/
def RankInv (vars₀ : VarTab) (k : Nat) (cur : VarTab) : Prop :=
  ∀ x v, (x, v) ∈ cur →
    ∃ r, rankV vars₀ vars₀.length v = some r ∧ r ≤ rank0 vars₀ x - k

/-- A name lying on a `$`-reference cycle of the original table. -/
def CycMem (vars₀ : VarTab) (x : Str) : Prop :=
  ∃ m, 0 < m ∧ iterRef vars₀ m x = some x

/-- The cycle invariant: every cycle member's current value is a `$`
reference to another cycle member. -/
def CycInv (vars₀ cur : VarTab) : Prop :=
  ∀ x, CycMem vars₀ x → ∃ y, lookupVar cur x = some ('$' :: y) ∧ CycMem vars₀ y

mutual

/-- The document contains a whole-string `$name` reference to a name absent
from `vars` (the situation §4.4 reports as an undefined variable). -/
def hasUndefRef (vars : VarTab) : TomlValue → Bool
  | .str s =>
    match refName? s with
    | some n => !(containsKey vars n)
    | none => false
  | .arr xs => hasUndefRefList vars xs
  | .table kvs => hasUndefRefTable vars kvs
  | _ => false

/-- `hasUndefRef` over an array's elements. -/
def hasUndefRefList (vars : VarTab) : TomlList → Bool
  | .nil => false
  | .cons x xs => hasUndefRef vars x || hasUndefRefList vars xs

/-- `hasUndefRef` over a table's values. -/
def hasUndefRefTable (vars : VarTab) : TomlTable → Bool
  | .nil => false
  | .cons _ v rest => hasUndefRef vars v || hasUndefRefTable vars rest

end

/-- An identifier character, per the spec's wording. -/
def isIdentChar (c : Char) : Bool :=
  isAsciiAlphabetic c || isAsciiDigit c || c = '_'

/-- Modelled from the spec (claim C8): a string that "consists of an
identifier immediately followed by `(`". -/
def specFnCallShape (s : Str) : Bool :=
  let ident := s.takeWhile isIdentChar
  decide (ident ≠ []) && ((s.drop ident.length).head? = some '(')

end Variables

/-- Modelled from the spec (§3, claim C5): per field, the override's value
if present, else the base's. -/
def mergeSpecField {α : Type} (base over : Option α) : Option α :=
  match over with
  | some v => some v
  | none => base

/-- Modelled from the spec: the field-wise right-biased merge of two button
field sets, written per the spec's words for comparison with the generated
`merge`. -/
def buttonMergeSpec (a b : Button.ButtonFieldsRaw) : Button.ButtonFieldsRaw where
  background := mergeSpecField a.background b.background
  text_color := mergeSpecField a.text_color b.text_color
  border_width := mergeSpecField a.border_width b.border_width
  border_color := mergeSpecField a.border_color b.border_color
  border_radius := mergeSpecField a.border_radius b.border_radius
  shadow_color := mergeSpecField a.shadow_color b.shadow_color
  shadow_offset_x := mergeSpecField a.shadow_offset_x b.shadow_offset_x
  shadow_offset_y := mergeSpecField a.shadow_offset_y b.shadow_offset_y
  shadow_blur_radius := mergeSpecField a.shadow_blur_radius b.shadow_blur_radius

/-- Modelled from the spec: the field-wise right-biased merge of two
checkbox field sets, written per the spec's words. -/
def checkboxMergeSpec (a b : Checkbox.CheckboxFieldsRaw) : Checkbox.CheckboxFieldsRaw where
  background := mergeSpecField a.background b.background
  icon_color := mergeSpecField a.icon_color b.icon_color
  border_width := mergeSpecField a.border_width b.border_width
  border_color := mergeSpecField a.border_color b.border_color
  border_radius := mergeSpecField a.border_radius b.border_radius
  text_color := mergeSpecField a.text_color b.text_color

/-- The fully-defaulted button appearance (every field at its documented
default). -/
def Button.defaultAppearance : Button.ButtonAppearance where
  background := none
  text_color := colorBlack
  border := ⟨colorTransparent, 0, Style.RadiusQ.uniform 0⟩
  shadow := ⟨colorTransparent, 0, 0, 0⟩

/-- The fully-defaulted container appearance. -/
def Container.defaultAppearance : Container.ContainerAppearance where
  background := none
  text_color := none
  border := ⟨colorTransparent, 0, Style.RadiusQ.uniform 0⟩
  shadow := ⟨colorTransparent, 0, 0, 0⟩

/-- The fully-defaulted text-input style. -/
def TextInput.defaultNative : TextInput.TextInputNative where
  background := .color colorTransparent
  border := ⟨colorTransparent, 0, Style.RadiusQ.uniform 0⟩
  icon := colorBlack
  placeholder := fromRgba8 128 128 128 1
  value := colorBlack
  selection := fromRgba8 51 153 255 (3 / 10)

/-- The fully-defaulted checkbox style variant. -/
def Checkbox.defaultNative : Checkbox.CheckboxNative where
  background := .color colorTransparent
  icon_color := colorBlack
  border := ⟨colorTransparent, 0, Style.RadiusQ.uniform 0⟩
  text_color := none

/-- The fully-defaulted toggler appearance. -/
def Toggler.defaultAppearance : Toggler.TogglerAppearance where
  background := colorTransparent
  foreground := colorBlack
  background_border_width := 0
  background_border_color := colorTransparent
  foreground_border_width := 0
  foreground_border_color := colorTransparent
  border_radius := none
  text_color := none

/-- The fully-defaulted slider appearance. -/
def Slider.defaultAppearance : Slider.SliderAppearance where
  rail_color_1 := colorBlack
  rail_color_2 := colorTransparent
  rail_width := 4
  rail_border_radius := Style.RadiusQ.uniform 0
  handle_shape := .circle 7
  handle_background := .color colorBlack
  handle_border := ⟨colorTransparent, 0, Style.RadiusQ.uniform 0⟩

/-- The fully-defaulted progress-bar appearance. -/
def ProgressBar.defaultAppearance : ProgressBar.ProgressBarAppearance where
  background := .color colorTransparent
  bar := .color colorBlack
  border := ⟨colorTransparent, 0, Style.RadiusQ.uniform 0⟩

/-- The fully-defaulted radio appearance. -/
def Radio.defaultAppearance : Radio.RadioAppearance where
  background := colorTransparent
  dot_color := colorBlack
  border_width := 1
  border_color := colorBlack
  text_color := none


/-! # Helper lemmas -/

theorem mergeSpecField_eq_or {α : Type} (x y : Option α) :
    mergeSpecField x y = y.or x := by
  cases y <;> rfl

theorem hexVal_cases (c : Char) (v : Nat) (h : hexVal c = some v) :
    v < 16 ∧ asciiToUpper c = hexDigitChar v ∧ c ≠ '+' := by
  unfold hexVal at h
  split at h <;> first
    | (cases h; decide)
    | exact absurd h (by simp)

theorem u8OfQ_natCast (b : Nat) (hb : b ≤ 255) : u8OfQ (b : ℚ) = b := by
  unfold u8OfQ
  rw [if_neg (not_lt.mpr (Nat.cast_nonneg b)), Int.floor_natCast]
  simp [hb]

theorem u8OfQ_byte (b : Nat) (hb : b ≤ 255) : u8OfQ ((b : ℚ) / 255 * 255) = b := by
  rw [div_mul_cancel₀ (b : ℚ) (by norm_num)]
  exact u8OfQ_natCast b hb

theorem hex2_of_digits (v1 v2 : Nat) (h1 : v1 < 16) (h2 : v2 < 16) :
    hex2 (16 * v1 + v2) = [hexDigitChar v1, hexDigitChar v2] := by
  have d : (16 * v1 + v2) / 16 = v1 := by omega
  have m : (16 * v1 + v2) % 16 = v2 := by omega
  simp [hex2, d, m]

theorem parseHexByte_window (hex : Str) (pos : Nat) (c1 c2 : Char) (rest : Str)
    (hw : hex.drop pos = c1 :: c2 :: rest) (v1 v2 : Nat)
    (h1 : hexVal c1 = some v1) (h2 : hexVal c2 = some v2) :
    parseHexByte hex pos = .ok (16 * v1 + v2) := by
  have hne := (hexVal_cases c1 v1 h1).2.2
  unfold parseHexByte
  rw [hw]
  dsimp only [List.take]
  split
  · next heq =>
    injection heq with heq1 _
    exact absurd heq1 hne
  · next d1 d2 heq =>
    injection heq with e1 erest
    injection erest with e2 _
    rw [← e1, ← e2, h1, h2]
  · next hno =>
    exact absurd rfl (hno c1 c2)

theorem parseHexDigit_at (hex : Str) (pos : Nat) (c : Char) (rest : Str)
    (hw : hex.drop pos = c :: rest) (v : Nat) (h : hexVal c = some v) :
    parseHexDigit hex pos = .ok v := by
  unfold parseHexDigit
  rw [hw]
  dsimp only
  rw [h]

theorem asciiToLower_hash : asciiToLower '#' = '#' := by decide

theorem map_lower_hash_ne_black (hex : Str) :
    ('#' :: hex).map asciiToLower ≠ "black".toList := by
  intro h
  rw [List.map_cons, asciiToLower_hash,
    show ("black".toList : Str) = 'b' :: "lack".toList from rfl] at h
  injection h with h1 _
  exact absurd h1 (by decide)

theorem map_lower_hash_ne_white (hex : Str) :
    ('#' :: hex).map asciiToLower ≠ "white".toList := by
  intro h
  rw [List.map_cons, asciiToLower_hash,
    show ("white".toList : Str) = 'w' :: "hite".toList from rfl] at h
  injection h with h1 _
  exact absurd h1 (by decide)

theorem map_lower_hash_ne_transparent (hex : Str) :
    ('#' :: hex).map asciiToLower ≠ "transparent".toList := by
  intro h
  rw [List.map_cons, asciiToLower_hash,
    show ("transparent".toList : Str) = 't' :: "ransparent".toList from rfl] at h
  injection h with h1 _
  exact absurd h1 (by decide)

/-- `parse_color` on any `#`-prefixed token skips the named-color branches. -/
theorem parseColor_hash (hex : Str) :
    parseColor ('#' :: hex) =
      (match hex.length with
      | 3 => do
        let r ← parseHexDigit hex 0
        let g ← parseHexDigit hex 1
        let b ← parseHexDigit hex 2
        .ok (fromRgb8 (16 * r + r) (16 * g + g) (16 * b + b))
      | 6 => do
        let r ← parseHexByte hex 0
        let g ← parseHexByte hex 2
        let b ← parseHexByte hex 4
        .ok (fromRgb8 r g b)
      | 8 => do
        let r ← parseHexByte hex 0
        let g ← parseHexByte hex 2
        let b ← parseHexByte hex 4
        let a ← parseHexByte hex 6
        .ok (fromRgba8 r g b ((a : ℚ) / 255))
      | n =>
        .error ("expected 3, 6, or 8 hex digits after '#', got ".toList ++ natToStr n)) := by
  unfold parseColor
  rw [if_neg (map_lower_hash_ne_black hex), if_neg (map_lower_hash_ne_white hex),
    if_neg (map_lower_hash_ne_transparent hex)]
  rfl

theorem epsQ_pos : (0 : ℚ) < epsQ := by
  unfold epsQ
  norm_num

/-- The alpha guard of canonicalization fails for every alpha byte below 255. -/
theorem alpha_guard_ne (ab : Nat) (hle : ab ≤ 255) (hne : ab ≠ 255) :
    ¬ |(ab : ℚ) / 255 - 1| < epsQ := by
  have h254 : (ab : ℚ) ≤ 254 := by exact_mod_cast (by omega : ab ≤ 254)
  have hx : (ab : ℚ) / 255 ≤ 254 / 255 := by
    apply div_le_div_of_nonneg_right h254 <;> norm_num
  have habs : |(ab : ℚ) / 255 - 1| = 1 - (ab : ℚ) / 255 := by
    rw [abs_sub_comm]
    apply abs_of_nonneg
    linarith
  rw [habs]
  unfold epsQ
  intro hcon
  linarith

theorem parseColor6 (c1 c2 c3 c4 c5 c6 : Char) (v1 v2 v3 v4 v5 v6 : Nat)
    (h1 : hexVal c1 = some v1) (h2 : hexVal c2 = some v2) (h3 : hexVal c3 = some v3)
    (h4 : hexVal c4 = some v4) (h5 : hexVal c5 = some v5) (h6 : hexVal c6 = some v6) :
    parseColor ('#' :: [c1, c2, c3, c4, c5, c6])
      = .ok (fromRgb8 (16 * v1 + v2) (16 * v3 + v4) (16 * v5 + v6)) := by
  have e1 : parseHexByte [c1, c2, c3, c4, c5, c6] 0 = .ok (16 * v1 + v2) :=
    parseHexByte_window [c1, c2, c3, c4, c5, c6] 0 c1 c2 [c3, c4, c5, c6] rfl v1 v2 h1 h2
  have e2 : parseHexByte [c1, c2, c3, c4, c5, c6] 2 = .ok (16 * v3 + v4) :=
    parseHexByte_window [c1, c2, c3, c4, c5, c6] 2 c3 c4 [c5, c6] rfl v3 v4 h3 h4
  have e3 : parseHexByte [c1, c2, c3, c4, c5, c6] 4 = .ok (16 * v5 + v6) :=
    parseHexByte_window [c1, c2, c3, c4, c5, c6] 4 c5 c6 [] rfl v5 v6 h5 h6
  rw [parseColor_hash]
  simp only [e1, e2, e3]
  rfl

theorem parseColor8 (c1 c2 c3 c4 c5 c6 c7 c8 : Char) (v1 v2 v3 v4 v5 v6 v7 v8 : Nat)
    (h1 : hexVal c1 = some v1) (h2 : hexVal c2 = some v2) (h3 : hexVal c3 = some v3)
    (h4 : hexVal c4 = some v4) (h5 : hexVal c5 = some v5) (h6 : hexVal c6 = some v6)
    (h7 : hexVal c7 = some v7) (h8 : hexVal c8 = some v8) :
    parseColor ('#' :: [c1, c2, c3, c4, c5, c6, c7, c8])
      = .ok (fromRgba8 (16 * v1 + v2) (16 * v3 + v4) (16 * v5 + v6)
          (((16 * v7 + v8 : Nat) : ℚ) / 255)) := by
  have e1 : parseHexByte [c1, c2, c3, c4, c5, c6, c7, c8] 0 = .ok (16 * v1 + v2) :=
    parseHexByte_window [c1, c2, c3, c4, c5, c6, c7, c8] 0 c1 c2 [c3, c4, c5, c6, c7, c8] rfl v1 v2 h1 h2
  have e2 : parseHexByte [c1, c2, c3, c4, c5, c6, c7, c8] 2 = .ok (16 * v3 + v4) :=
    parseHexByte_window [c1, c2, c3, c4, c5, c6, c7, c8] 2 c3 c4 [c5, c6, c7, c8] rfl v3 v4 h3 h4
  have e3 : parseHexByte [c1, c2, c3, c4, c5, c6, c7, c8] 4 = .ok (16 * v5 + v6) :=
    parseHexByte_window [c1, c2, c3, c4, c5, c6, c7, c8] 4 c5 c6 [c7, c8] rfl v5 v6 h5 h6
  have e4 : parseHexByte [c1, c2, c3, c4, c5, c6, c7, c8] 6 = .ok (16 * v7 + v8) :=
    parseHexByte_window [c1, c2, c3, c4, c5, c6, c7, c8] 6 c7 c8 [] rfl v7 v8 h7 h8
  rw [parseColor_hash]
  simp only [e1, e2, e3, e4]
  rfl

theorem parseColor3 (c1 c2 c3 : Char) (v1 v2 v3 : Nat)
    (h1 : hexVal c1 = some v1) (h2 : hexVal c2 = some v2) (h3 : hexVal c3 = some v3) :
    parseColor ('#' :: [c1, c2, c3])
      = .ok (fromRgb8 (16 * v1 + v1) (16 * v2 + v2) (16 * v3 + v3)) := by
  have e1 : parseHexDigit [c1, c2, c3] 0 = .ok v1 :=
    parseHexDigit_at [c1, c2, c3] 0 c1 [c2, c3] rfl v1 h1
  have e2 : parseHexDigit [c1, c2, c3] 1 = .ok v2 :=
    parseHexDigit_at [c1, c2, c3] 1 c2 [c3] rfl v2 h2
  have e3 : parseHexDigit [c1, c2, c3] 2 = .ok v3 :=
    parseHexDigit_at [c1, c2, c3] 2 c3 [] rfl v3 h3
  rw [parseColor_hash]
  simp only [e1, e2, e3]
  rfl

theorem displayColor_rgb (b1 b2 b3 : Nat) (h1 : b1 ≤ 255) (h2 : b2 ≤ 255) (h3 : b3 ≤ 255) :
    displayColor (fromRgb8 b1 b2 b3) = '#' :: (hex2 b1 ++ hex2 b2 ++ hex2 b3) := by
  unfold displayColor
  rw [if_pos (show |(fromRgb8 b1 b2 b3).a - 1| < epsQ by
    show |(1 : ℚ) - 1| < epsQ
    simpa using epsQ_pos)]
  show '#' :: (hex2 (u8OfQ ((b1 : ℚ) / 255 * 255)) ++ hex2 (u8OfQ ((b2 : ℚ) / 255 * 255))
      ++ hex2 (u8OfQ ((b3 : ℚ) / 255 * 255))) = _
  rw [u8OfQ_byte b1 h1, u8OfQ_byte b2 h2, u8OfQ_byte b3 h3]

theorem displayColor_rgba (b1 b2 b3 ab : Nat)
    (h1 : b1 ≤ 255) (h2 : b2 ≤ 255) (h3 : b3 ≤ 255) (h4 : ab ≤ 255) (hne : ab ≠ 255) :
    displayColor (fromRgba8 b1 b2 b3 ((ab : ℚ) / 255))
      = '#' :: (hex2 b1 ++ hex2 b2 ++ hex2 b3 ++ hex2 ab) := by
  unfold displayColor
  rw [if_neg (show ¬ |(fromRgba8 b1 b2 b3 ((ab : ℚ) / 255)).a - 1| < epsQ from
    alpha_guard_ne ab h4 hne)]
  show '#' :: (hex2 (u8OfQ ((b1 : ℚ) / 255 * 255)) ++ hex2 (u8OfQ ((b2 : ℚ) / 255 * 255))
      ++ hex2 (u8OfQ ((b3 : ℚ) / 255 * 255)) ++ hex2 (u8OfQ ((ab : ℚ) / 255 * 255))) = _
  rw [u8OfQ_byte b1 h1, u8OfQ_byte b2 h2, u8OfQ_byte b3 h3, u8OfQ_byte ab h4]

theorem displayColor_rgba_full_alpha (b1 b2 b3 : Nat)
    (h1 : b1 ≤ 255) (h2 : b2 ≤ 255) (h3 : b3 ≤ 255) :
    displayColor (fromRgba8 b1 b2 b3 ((255 : Nat) / (255 : ℚ)))
      = '#' :: (hex2 b1 ++ hex2 b2 ++ hex2 b3) := by
  unfold displayColor
  rw [if_pos (show |(fromRgba8 b1 b2 b3 ((255 : Nat) / (255 : ℚ))).a - 1| < epsQ by
    show |((255 : Nat) : ℚ) / 255 - 1| < epsQ
    norm_num
    exact epsQ_pos)]
  show '#' :: (hex2 (u8OfQ ((b1 : ℚ) / 255 * 255)) ++ hex2 (u8OfQ ((b2 : ℚ) / 255 * 255))
      ++ hex2 (u8OfQ ((b3 : ℚ) / 255 * 255))) = _
  rw [u8OfQ_byte b1 h1, u8OfQ_byte b2 h2, u8OfQ_byte b3 h3]

theorem passEntries_error_of_undef (snapshot : VarTab) (l : VarTab)
    (h : ∃ kv ∈ l, ∃ n, Variables.refName? kv.2 = some n ∧ lookupVar snapshot n = none) :
    ∃ n k, Variables.passEntries snapshot l = .error (Variables.undefinedVarMsg n k)
      ∧ lookupVar snapshot n = none := by
  induction l with
  | nil =>
    obtain ⟨kv, hmem, -⟩ := h
    cases hmem
  | cons hd tl ih =>
    obtain ⟨k, v⟩ := hd
    obtain ⟨kv, hmem, n, href, hlook⟩ := h
    unfold Variables.passEntries
    cases hv : Variables.refName? v with
    | some n0 =>
      dsimp only
      cases hl : lookupVar snapshot n0 with
      | none =>
        exact ⟨n0, k, rfl, hl⟩
      | some r =>
        have hkv : kv ∈ tl := by
          rcases List.mem_cons.mp hmem with h1 | h1
          · exfalso
            rw [show kv = (k, v) from h1] at href
            simp only at href
            rw [hv] at href
            cases href
            rw [hl] at hlook
            cases hlook
          · exact h1
        obtain ⟨n', k', heq, hl'⟩ := ih ⟨kv, hkv, n, href, hlook⟩
        rw [heq]
        exact ⟨n', k', rfl, hl'⟩
    | none =>
      dsimp only
      have hkv : kv ∈ tl := by
        rcases List.mem_cons.mp hmem with h1 | h1
        · exfalso
          rw [show kv = (k, v) from h1] at href
          simp only at href
          rw [hv] at href
          cases href
        · exact h1
      obtain ⟨n', k', heq, hl'⟩ := ih ⟨kv, hkv, n, href, hlook⟩
      rw [heq]
      exact ⟨n', k', rfl, hl'⟩

theorem evaluateVars_error_of_pass_error (vars : VarTab) (e : Str)
    (h : Variables.passEntries vars vars = .error e) :
    Variables.evaluateVars vars = .error e := by
  unfold Variables.evaluateVars Variables.refLoop
  rw [h]

mutual

theorem substitute_error_of_undef (vars : VarTab) :
    ∀ v : TomlValue, Variables.hasUndefRef vars v = true →
      ∃ e, Variables.substitute vars v = .error e
  | .str s, h => by
    unfold Variables.hasUndefRef at h
    unfold Variables.substitute
    cases hv : Variables.refName? s with
    | some n =>
      rw [hv] at h
      simp only [Bool.not_eq_true'] at h
      have hnone : lookupVar vars n = none := by
        unfold containsKey at h
        cases hl : lookupVar vars n
        · rfl
        · rw [hl] at h
          cases h
      dsimp only
      rw [hnone]
      exact ⟨_, rfl⟩
    | none =>
      rw [hv] at h
      cases h
  | .arr xs, h => by
    obtain ⟨e, he⟩ := substituteList_error_of_undef vars xs h
    unfold Variables.substitute
    rw [he]
    exact ⟨e, rfl⟩
  | .table kvs, h => by
    obtain ⟨e, he⟩ := substituteTable_error_of_undef vars kvs h
    unfold Variables.substitute
    rw [he]
    exact ⟨e, rfl⟩

theorem substituteList_error_of_undef (vars : VarTab) :
    ∀ xs : TomlList, Variables.hasUndefRefList vars xs = true →
      ∃ e, Variables.substituteList vars xs = .error e
  | .nil, h => by cases h
  | .cons x xs, h => by
    unfold Variables.substituteList
    cases hx : Variables.substitute vars x with
    | error e => exact ⟨e, rfl⟩
    | ok x' =>
      unfold Variables.hasUndefRefList at h
      rcases Bool.or_eq_true_iff.mp h with h1 | h1
      · obtain ⟨e, he⟩ := substitute_error_of_undef vars x h1
        rw [he] at hx
        cases hx
      · obtain ⟨e, he⟩ := substituteList_error_of_undef vars xs h1
        rw [he]
        exact ⟨e, rfl⟩

theorem substituteTable_error_of_undef (vars : VarTab) :
    ∀ kvs : TomlTable, Variables.hasUndefRefTable vars kvs = true →
      ∃ e, Variables.substituteTable vars kvs = .error e
  | .nil, h => by cases h
  | .cons k v rest, h => by
    unfold Variables.substituteTable
    cases hx : Variables.substitute vars v with
    | error e => exact ⟨e, rfl⟩
    | ok v' =>
      unfold Variables.hasUndefRefTable at h
      rcases Bool.or_eq_true_iff.mp h with h1 | h1
      · obtain ⟨e, he⟩ := substitute_error_of_undef vars v h1
        rw [he] at hx
        cases hx
      · obtain ⟨e, he⟩ := substituteTable_error_of_undef vars rest h1
        rw [he]
        exact ⟨e, rfl⟩

end

namespace Variables

theorem refName?_eq_some {v n : Str} : refName? v = some n ↔ v = '$' :: n := by
  constructor
  · intro h
    unfold refName? at h
    split at h
    · cases h
      rfl
    · cases h
  · intro h
    rw [h]
    rfl

theorem lookupVar_isSome_iff {vars : VarTab} {n : Str} :
    (lookupVar vars n).isSome ↔ n ∈ keysOf vars := by
  induction vars with
  | nil => simp [lookupVar, keysOf]
  | cons hd tl ih =>
    obtain ⟨k, v⟩ := hd
    by_cases hk : k = n
    · subst hk
      simp [lookupVar, keysOf]
    · simp only [lookupVar, if_neg hk, keysOf, List.map_cons, List.mem_cons]
      rw [ih]
      simp [keysOf, Ne.symm hk]

theorem lookupVar_mem {vars : VarTab} {n v : Str} (h : lookupVar vars n = some v) :
    (n, v) ∈ vars := by
  induction vars with
  | nil => cases h
  | cons hd tl ih =>
    obtain ⟨k, w⟩ := hd
    unfold lookupVar at h
    split at h
    · next hk =>
      cases h
      subst hk
      exact List.mem_cons_self _ _
    · exact List.mem_cons_of_mem _ (ih h)

theorem value_mem_of_lookup {vars : VarTab} {n v : Str} (h : lookupVar vars n = some v) :
    v ∈ valuesOf vars := by
  have := lookupVar_mem h
  exact List.mem_map.mpr ⟨(n, v), this, rfl⟩

theorem lookupVar_of_mem_nodup {vars : VarTab} {x v : Str}
    (hmem : (x, v) ∈ vars) (hnd : (keysOf vars).Nodup) : lookupVar vars x = some v := by
  induction vars with
  | nil => cases hmem
  | cons hd tl ih =>
    obtain ⟨k, w⟩ := hd
    rw [keysOf, List.map_cons, List.nodup_cons] at hnd
    rcases List.mem_cons.mp hmem with h1 | h1
    · cases h1
      unfold lookupVar
      rw [if_pos rfl]
    · unfold lookupVar
      split
      · next hk =>
        exfalso
        subst hk
        exact hnd.1 (List.mem_map.mpr ⟨(k, v), h1, rfl⟩)
      · exact ih h1 hnd.2

theorem keysOf_passOk (s l : VarTab) : keysOf (passOk s l) = keysOf l := by
  unfold keysOf passOk
  rw [List.map_map]
  rfl

theorem lookup_passOk (s : VarTab) (l : VarTab) (x : Str) :
    lookupVar (passOk s l) x = (lookupVar l x).map (stepVal s) := by
  induction l with
  | nil => rfl
  | cons hd tl ih =>
    obtain ⟨k, v⟩ := hd
    unfold passOk at ih ⊢
    show lookupVar ((k, stepVal s v) :: _) x = _
    unfold lookupVar
    split
    · rfl
    · exact ih

theorem stepVal_cases (s : VarTab) (v : Str) :
    stepVal s v = v ∨ stepVal s v ∈ valuesOf s := by
  unfold stepVal
  split
  · next n heq =>
    cases hl : lookupVar s n with
    | none => left; rfl
    | some r =>
      right
      exact value_mem_of_lookup hl
  · left; rfl

theorem mem_values_passOk {s l : VarTab} {v' : Str} (h : v' ∈ valuesOf (passOk s l)) :
    ∃ v ∈ valuesOf l, v' = stepVal s v := by
  unfold valuesOf passOk at h
  rw [List.map_map] at h
  obtain ⟨kv, hmem, heq⟩ := List.mem_map.mp h
  exact ⟨kv.2, List.mem_map.mpr ⟨kv, hmem, rfl⟩, heq.symm⟩

theorem goodState_refl (vars₀ : VarTab) : GoodState vars₀ vars₀ :=
  ⟨rfl, fun _ h => h⟩

theorem goodState_step {vars₀ cur : VarTab} (h : GoodState vars₀ cur) :
    GoodState vars₀ (passOk cur cur) := by
  refine ⟨by rw [keysOf_passOk]; exact h.1, ?_⟩
  intro v' hv'
  obtain ⟨v, hv, heq⟩ := mem_values_passOk hv'
  rcases stepVal_cases cur v with hc | hc
  · rw [heq, hc]
    exact h.2 v hv
  · rw [heq]
    exact h.2 _ hc

theorem allRefsDefined_spec {vars₀ : VarTab} (h : allRefsDefined vars₀ = true)
    {v n : Str} (hv : v ∈ valuesOf vars₀) (hn : refName? v = some n) :
    n ∈ keysOf vars₀ := by
  obtain ⟨kv, hkv, heq⟩ := List.mem_map.mp hv
  unfold allRefsDefined at h
  have hthis := List.all_eq_true.mp h kv hkv
  rw [heq, hn] at hthis
  dsimp only at hthis
  unfold containsKey at hthis
  rw [← lookupVar_isSome_iff]
  exact hthis

theorem refsDefined_of_good {vars₀ cur : VarTab}
    (had : allRefsDefined vars₀ = true) (hg : GoodState vars₀ cur) :
    ∀ kv ∈ cur, ∀ n, refName? kv.2 = some n → (lookupVar cur n).isSome := by
  intro kv hkv n hn
  have hv : kv.2 ∈ valuesOf vars₀ := hg.2 _ (List.mem_map.mpr ⟨kv, hkv, rfl⟩)
  have hkeys : n ∈ keysOf vars₀ := allRefsDefined_spec had hv hn
  rw [lookupVar_isSome_iff, hg.1]
  exact hkeys

theorem passEntries_ok (snapshot : VarTab) (l : VarTab)
    (h : ∀ kv ∈ l, ∀ n, refName? kv.2 = some n → (lookupVar snapshot n).isSome) :
    passEntries snapshot l = .ok (passOk snapshot l, passChanged snapshot l) := by
  induction l with
  | nil => rfl
  | cons hd tl ih =>
    obtain ⟨k, v⟩ := hd
    have htl : ∀ kv ∈ tl, ∀ n, refName? kv.2 = some n → (lookupVar snapshot n).isSome :=
      fun kv hkv => h kv (List.mem_cons_of_mem _ hkv)
    unfold passEntries
    cases hv : refName? v with
    | some n =>
      dsimp only
      cases hl : lookupVar snapshot n with
      | none =>
        exfalso
        have := h (k, v) (List.mem_cons_self _ _) n hv
        rw [hl] at this
        cases this
      | some r =>
        rw [ih htl]
        dsimp only
        have hstep : stepVal snapshot v = r := by
          unfold stepVal
          rw [hv]
          dsimp only
          rw [hl]
          rfl
        unfold passOk passChanged
        rw [List.map_cons, List.any_cons]
        by_cases hrv : r = v
        · rw [if_neg (by simpa using hrv)]
          rw [hstep, hrv]
          simp
        · rw [if_pos (by simpa using hrv)]
          rw [hstep]
          simp [hrv]
    | none =>
      rw [ih htl]
      dsimp only
      have hstep : stepVal snapshot v = v := by
        unfold stepVal
        rw [hv]
      unfold passOk passChanged
      rw [List.map_cons, List.any_cons, hstep]
      simp

theorem passOk_of_not_changed {snapshot l : VarTab}
    (h : passChanged snapshot l = false) : passOk snapshot l = l := by
  unfold passChanged at h
  unfold passOk
  induction l with
  | nil => rfl
  | cons hd tl ih =>
    obtain ⟨k, v⟩ := hd
    rw [List.any_cons] at h
    rcases Bool.or_eq_false_iff.mp h with ⟨h1, h2⟩
    rw [List.map_cons, ih h2]
    have hsv : stepVal snapshot v = v := by simpa using h1
    rw [hsv]

theorem iterRef_add (vars₀ : VarTab) (a b : Nat) (x : Str) :
    iterRef vars₀ (a + b) x = (iterRef vars₀ a x).bind (iterRef vars₀ b) := by
  induction a generalizing x with
  | zero => simp [iterRef]
  | succ a ih =>
    rw [show a + 1 + b = (a + b) + 1 from by omega]
    show (refStep vars₀ x).bind (iterRef vars₀ (a + b))
      = ((refStep vars₀ x).bind (iterRef vars₀ a)).bind (iterRef vars₀ b)
    cases refStep vars₀ x with
    | none => rfl
    | some y =>
      simp only [Option.some_bind]
      exact ih y

theorem cycMem_step {vars₀ : VarTab} {x : Str} (hc : CycMem vars₀ x) :
    ∃ y, refStep vars₀ x = some y ∧ CycMem vars₀ y := by
  obtain ⟨m, hm, hiter⟩ := hc
  obtain ⟨m', rfl⟩ : ∃ m', m = m' + 1 := ⟨m - 1, by omega⟩
  unfold iterRef at hiter
  cases hstep : refStep vars₀ x with
  | none =>
    rw [hstep] at hiter
    cases hiter
  | some y =>
    rw [hstep] at hiter
    rw [Option.some_bind] at hiter
    refine ⟨y, rfl, m' + 1, by omega, ?_⟩
    rw [iterRef_add vars₀ m' 1 y, hiter, Option.some_bind]
    show (refStep vars₀ x).bind (iterRef vars₀ 0) = some y
    rw [hstep]
    rfl

theorem hasCycle_iff {vars₀ : VarTab} : HasCycle vars₀ ↔ ∃ x, CycMem vars₀ x := by
  constructor
  · rintro ⟨x, m, hm, hiter⟩
    exact ⟨x, m, hm, hiter⟩
  · rintro ⟨x, m, hm, hiter⟩
    exact ⟨x, m, hm, hiter⟩

theorem cycInv_init (vars₀ : VarTab) : CycInv vars₀ vars₀ := by
  intro x hx
  obtain ⟨y, hstep, hcy⟩ := cycMem_step hx
  unfold refStep at hstep
  cases hl : lookupVar vars₀ x with
  | none =>
    rw [hl] at hstep
    cases hstep
  | some v =>
    rw [hl] at hstep
    rw [Option.some_bind] at hstep
    have hv := refName?_eq_some.mp hstep
    exact ⟨y, by rw [hv], hcy⟩

theorem cycInv_step {vars₀ cur : VarTab} (hinv : CycInv vars₀ cur) :
    CycInv vars₀ (passOk cur cur) := by
  intro x hx
  obtain ⟨y, hly, hcy⟩ := hinv x hx
  obtain ⟨z, hlz, hcz⟩ := hinv y hcy
  refine ⟨z, ?_, hcz⟩
  rw [lookup_passOk, hly, Option.map_some']
  have hstep : stepVal cur ('$' :: y) = '$' :: z := by
    unfold stepVal
    rw [show refName? ('$' :: y) = some y from rfl]
    dsimp only
    rw [hlz]
    rfl
  rw [hstep]

theorem refLoop_preserves (vars₀ : VarTab) (had : allRefsDefined vars₀ = true)
    (P : VarTab → Prop)
    (hstep : ∀ cur, GoodState vars₀ cur → P cur → P (passOk cur cur)) :
    ∀ (fuel : Nat) (cur : VarTab), GoodState vars₀ cur → P cur →
      ∃ final, refLoop fuel cur = .ok final ∧ GoodState vars₀ final ∧ P final := by
  intro fuel
  induction fuel with
  | zero =>
    intro cur hg hp
    exact ⟨cur, rfl, hg, hp⟩
  | succ fuel ih =>
    intro cur hg hp
    unfold refLoop
    rw [passEntries_ok cur cur (refsDefined_of_good had hg)]
    dsimp only
    by_cases hch : passChanged cur cur = true
    · rw [if_pos hch]
      exact ih (passOk cur cur) (goodState_step hg) (hstep cur hg hp)
    · rw [if_neg hch]
      exact ⟨passOk cur cur, rfl, goodState_step hg, hstep cur hg hp⟩

theorem cyclicEntries_ne_nil {final : VarTab} {x y : Str}
    (hmem : (x, '$' :: y) ∈ final) : cyclicEntries final ≠ [] := by
  unfold cyclicEntries
  intro hcontra
  rw [List.map_eq_nil] at hcontra
  have hin : (x, '$' :: y) ∈ final.filter (fun kv => (refName? kv.2).isSome) :=
    List.mem_filter.mpr ⟨hmem, rfl⟩
  rw [hcontra] at hin
  cases hin

theorem rankV_literal {vars₀ : VarTab} {v : Str} (h : refName? v = none) (f : Nat) :
    rankV vars₀ f v = some 0 := by
  cases f with
  | zero =>
    unfold rankV
    rw [h]
    rfl
  | succ f =>
    unfold rankV
    rw [h]

theorem rankV_ref_elim {vars₀ : VarTab} {f : Nat} {v : Str} {r : Nat} {nn : Str}
    (h : rankV vars₀ f v = some r) (hv : refName? v = some nn) :
    ∃ f' w r', f = f' + 1 ∧ lookupVar vars₀ nn = some w
      ∧ rankV vars₀ f' w = some r' ∧ r = r' + 1 := by
  cases f with
  | zero =>
    unfold rankV at h
    rw [hv] at h
    cases h
  | succ f =>
    unfold rankV at h
    rw [hv] at h
    dsimp only at h
    cases hl : lookupVar vars₀ nn with
    | none =>
      rw [hl] at h
      cases h
    | some w =>
      rw [hl] at h
      dsimp only at h
      cases hr : rankV vars₀ f w with
      | none =>
        rw [hr] at h
        cases h
      | some r' =>
        rw [hr, Option.map_some'] at h
        cases h
        exact ⟨f, w, r', rfl, rfl, hr, rfl⟩

theorem rankV_mono {vars₀ : VarTab} :
    ∀ {f f' : Nat} {v : Str} {r : Nat}, rankV vars₀ f v = some r → f ≤ f' →
      rankV vars₀ f' v = some r := by
  intro f
  induction f with
  | zero =>
    intro f' v r h hle
    cases hv : refName? v with
    | none =>
      unfold rankV at h
      rw [hv] at h
      dsimp only [Option.isNone] at h
      cases h
      exact rankV_literal hv f'
    | some nn =>
      unfold rankV at h
      rw [hv] at h
      cases h
  | succ f ih =>
    intro f' v r h hle
    cases hv : refName? v with
    | none =>
      have h0 := @rankV_literal vars₀ _ hv (f + 1)
      rw [h] at h0
      cases h0
      exact rankV_literal hv f'
    | some nn =>
      obtain ⟨f0, w, r', hf, hlw, hrw, hr⟩ := rankV_ref_elim h hv
      injection hf with hf0
      subst hf0
      subst hr
      obtain ⟨f'', rfl⟩ : ∃ k, f' = k + 1 := ⟨f' - 1, by omega⟩
      unfold rankV
      rw [hv]
      dsimp only
      rw [hlw]
      dsimp only
      rw [ih hrw (by omega), Option.map_some']

theorem rankV_zero_ref {vars₀ : VarTab} {f : Nat} {v : Str}
    (h : rankV vars₀ f v = some 0) : refName? v = none := by
  cases hv : refName? v with
  | none => rfl
  | some nn =>
    obtain ⟨f', w, r', -, -, -, hr⟩ := rankV_ref_elim h hv
    cases hr

theorem refStep_target_keys {vars₀ : VarTab} (had : allRefsDefined vars₀ = true)
    {y z : Str} (hs : refStep vars₀ y = some z) : z ∈ keysOf vars₀ := by
  unfold refStep at hs
  cases hl : lookupVar vars₀ y with
  | none =>
    rw [hl] at hs
    cases hs
  | some v =>
    rw [hl, Option.some_bind] at hs
    exact allRefsDefined_spec had (value_mem_of_lookup hl) hs

/-- In a fully-defined acyclic table, every key's reference chain reaches a
literal within `|vars|` steps. -/
theorem exists_terminal (vars₀ : VarTab) (had : allRefsDefined vars₀ = true)
    (hnc : ¬ HasCycle vars₀) :
    ∀ x ∈ keysOf vars₀, ∃ j, j ≤ vars₀.length
      ∧ ∃ y, iterRef vars₀ j x = some y ∧ refStep vars₀ y = none := by
  intro x hx
  by_contra hcon
  push_neg at hcon
  have hchain : ∀ j, j ≤ vars₀.length + 1 →
      ∃ y, iterRef vars₀ j x = some y ∧ y ∈ keysOf vars₀ := by
    intro j
    induction j with
    | zero => exact fun _ => ⟨x, rfl, hx⟩
    | succ j ih =>
      intro hj
      obtain ⟨y, hy, hyk⟩ := ih (by omega)
      cases hs : refStep vars₀ y with
      | none => exact absurd hs (hcon j (by omega) y hy)
      | some z =>
        refine ⟨z, ?_, refStep_target_keys had hs⟩
        rw [iterRef_add vars₀ j 1 x, hy, Option.some_bind]
        show (refStep vars₀ y).bind (iterRef vars₀ 0) = some z
        rw [hs]
        rfl
  have key : ∀ i j : Fin (vars₀.length + 1), (i : Nat) < (j : Nat) →
      (fun i : Fin (vars₀.length + 1) => (iterRef vars₀ i x).getD []) i
        = (fun i : Fin (vars₀.length + 1) => (iterRef vars₀ i x).getD []) j → False := by
    intro i j hij hfeq
    obtain ⟨yi, hyi, hyik⟩ := hchain i (by omega)
    obtain ⟨yj, hyj, -⟩ := hchain j (by omega)
    simp only [hyi, hyj, Option.getD_some] at hfeq
    subst hfeq
    have hcyc : iterRef vars₀ ((j : Nat) - (i : Nat)) yi = some yi := by
      have hsplit : iterRef vars₀ ((i : Nat) + ((j : Nat) - (i : Nat))) x
          = (iterRef vars₀ (i : Nat) x).bind (iterRef vars₀ ((j : Nat) - (i : Nat))) :=
        iterRef_add vars₀ _ _ x
      rw [show (i : Nat) + ((j : Nat) - (i : Nat)) = (j : Nat) from by omega, hyj, hyi,
        Option.some_bind] at hsplit
      exact hsplit.symm
    exact hnc ⟨yi, (j : Nat) - (i : Nat), by omega, hcyc⟩
  have hcard : ((keysOf vars₀).toFinset).card < (Finset.univ : Finset (Fin (vars₀.length + 1))).card := by
    have h1 : ((keysOf vars₀).toFinset).card ≤ (keysOf vars₀).length := (keysOf vars₀).toFinset_card_le
    have h2 : (keysOf vars₀).length = vars₀.length := by simp [keysOf]
    simp only [Finset.card_univ, Fintype.card_fin]
    omega
  obtain ⟨i, -, j, -, hij, hfij⟩ :=
    Finset.exists_ne_map_eq_of_card_lt_of_maps_to
      (f := fun i : Fin (vars₀.length + 1) => (iterRef vars₀ i x).getD []) hcard
      (fun i _ => by
        obtain ⟨y, hy, hyk⟩ := hchain i (by omega)
        show (iterRef vars₀ i x).getD [] ∈ (keysOf vars₀).toFinset
        rw [hy, Option.getD_some]
        exact List.mem_toFinset.mpr hyk)
  rcases Nat.lt_or_ge (i : Nat) (j : Nat) with hlt | hge
  · exact key i j hlt hfij
  · have hne : (j : Nat) < (i : Nat) := by
      rcases Nat.lt_or_ge (j : Nat) (i : Nat) with h | h
      · exact h
      · exact absurd (Fin.ext (by omega)) hij
    exact key j i hne hfij.symm

theorem rankV_of_chain (vars₀ : VarTab) (had : allRefsDefined vars₀ = true) :
    ∀ (j : Nat) (x : Str), (∃ y, iterRef vars₀ j x = some y ∧ refStep vars₀ y = none) →
      ∀ v, lookupVar vars₀ x = some v → ∃ r, r ≤ j ∧ rankV vars₀ j v = some r := by
  intro j
  induction j with
  | zero =>
    rintro x ⟨y, hy, hterm⟩ v hl
    have hxy : y = x := by
      cases hy
      rfl
    subst hxy
    unfold refStep at hterm
    rw [hl, Option.some_bind] at hterm
    exact ⟨0, le_refl 0, rankV_literal hterm 0⟩
  | succ j ih =>
    rintro x ⟨y, hy, hterm⟩ v hl
    unfold iterRef at hy
    cases hs : refStep vars₀ x with
    | none =>
      rw [hs] at hy
      cases hy
    | some x1 =>
      rw [hs, Option.some_bind] at hy
      have hrefv : refName? v = some x1 := by
        unfold refStep at hs
        rw [hl, Option.some_bind] at hs
        exact hs
      have hx1keys : x1 ∈ keysOf vars₀ := refStep_target_keys had hs
      obtain ⟨w, hlw⟩ : ∃ w, lookupVar vars₀ x1 = some w := by
        have := lookupVar_isSome_iff.mpr hx1keys
        cases hlw : lookupVar vars₀ x1 with
        | none =>
          rw [hlw] at this
          cases this
        | some w => exact ⟨w, rfl⟩
      obtain ⟨r', hr', hrank⟩ := ih x1 ⟨y, hy, hterm⟩ w hlw
      refine ⟨r' + 1, by omega, ?_⟩
      unfold rankV
      rw [hrefv]
      dsimp only
      rw [hlw]
      dsimp only
      rw [hrank, Option.map_some']

theorem rank_defined (vars₀ : VarTab) (had : allRefsDefined vars₀ = true)
    (hnc : ¬ HasCycle vars₀) (hnd : (keysOf vars₀).Nodup) :
    ∀ x v, (x, v) ∈ vars₀ →
      ∃ r, r ≤ vars₀.length ∧ rankV vars₀ vars₀.length v = some r := by
  intro x v hmem
  have hx : x ∈ keysOf vars₀ := List.mem_map.mpr ⟨(x, v), hmem, rfl⟩
  obtain ⟨j, hj, y, hy, hterm⟩ := exists_terminal vars₀ had hnc x hx
  have hl : lookupVar vars₀ x = some v := lookupVar_of_mem_nodup hmem hnd
  obtain ⟨r, hr, hrank⟩ := rankV_of_chain vars₀ had j x ⟨y, hy, hterm⟩ v hl
  exact ⟨r, by omega, rankV_mono hrank (by omega)⟩

theorem rank0_le (vars₀ : VarTab) (had : allRefsDefined vars₀ = true)
    (hnc : ¬ HasCycle vars₀) (hnd : (keysOf vars₀).Nodup)
    {x v : Str} (hmem : (x, v) ∈ vars₀) :
    rank0 vars₀ x ≤ vars₀.length ∧ rankV vars₀ vars₀.length v = some (rank0 vars₀ x) := by
  obtain ⟨r, hr, hrank⟩ := rank_defined vars₀ had hnc hnd x v hmem
  have hl : lookupVar vars₀ x = some v := lookupVar_of_mem_nodup hmem hnd
  have h0 : rank0 vars₀ x = r := by
    unfold rank0
    rw [hl, Option.getD_some, hrank, Option.getD_some]
  rw [h0]
  exact ⟨hr, hrank⟩

theorem rankInv_init (vars₀ : VarTab) (had : allRefsDefined vars₀ = true)
    (hnc : ¬ HasCycle vars₀) (hnd : (keysOf vars₀).Nodup) :
    RankInv vars₀ 0 vars₀ := by
  intro x v hmem
  obtain ⟨-, hrank⟩ := rank0_le vars₀ had hnc hnd hmem
  exact ⟨rank0 vars₀ x, hrank, by omega⟩

theorem rankInv_step (vars₀ : VarTab) (had : allRefsDefined vars₀ = true)
    {k : Nat} {cur : VarTab} (hg : GoodState vars₀ cur) (hinv : RankInv vars₀ k cur) :
    RankInv vars₀ (k + 1) (passOk cur cur) := by
  intro x v' hmem'
  obtain ⟨⟨x0, v⟩, hmem, heq⟩ := List.mem_map.mp hmem'
  dsimp only at heq
  injection heq with hx hv'
  subst hx
  subst hv'
  obtain ⟨r, hrank, hbound⟩ := hinv x0 v hmem
  cases hrv : refName? v with
  | none =>
    have h0 := @rankV_literal vars₀ _ hrv vars₀.length
    rw [hrank] at h0
    injection h0 with h0
    refine ⟨0, ?_, by omega⟩
    have hsv : stepVal cur v = v := by
      unfold stepVal
      rw [hrv]
    rw [hsv]
    exact rankV_literal hrv _
  | some nn =>
    obtain ⟨f', w, r', hf, hlw, hrw, hr⟩ := rankV_ref_elim hrank hrv
    have hvmem : v ∈ valuesOf cur := List.mem_map.mpr ⟨(x0, v), hmem, rfl⟩
    have hnnkeys : nn ∈ keysOf cur := by
      rw [hg.1]
      exact allRefsDefined_spec had (hg.2 v hvmem) hrv
    obtain ⟨v2, hl2⟩ : ∃ v2, lookupVar cur nn = some v2 := by
      have hs := lookupVar_isSome_iff.mpr hnnkeys
      cases hlk : lookupVar cur nn with
      | none =>
        rw [hlk] at hs
        cases hs
      | some v2 => exact ⟨v2, rfl⟩
    have hstep : stepVal cur v = v2 := by
      unfold stepVal
      rw [hrv]
      dsimp only
      rw [hl2]
      rfl
    obtain ⟨r2, hrank2, hbound2⟩ := hinv nn v2 (lookupVar_mem hl2)
    refine ⟨r2, by rw [hstep]; exact hrank2, ?_⟩
    have hrank0nn : rank0 vars₀ nn = r' := by
      unfold rank0
      rw [hlw, Option.getD_some, rankV_mono hrw (by omega), Option.getD_some]
    rw [hrank0nn] at hbound2
    omega

theorem literal_of_stationary (vars₀ : VarTab) (had : allRefsDefined vars₀ = true)
    {k : Nat} {cur : VarTab}
    (hg : GoodState vars₀ cur) (hinv : RankInv vars₀ k cur)
    (hst : passChanged cur cur = false) :
    ∀ kv ∈ cur, refName? kv.2 = none := by
  rintro ⟨x, v⟩ hmem
  cases hrv : refName? v with
  | none => rfl
  | some nn =>
    exfalso
    obtain ⟨r, hrank, hbound⟩ := hinv x v hmem
    obtain ⟨f', w, r', hf, hlw, hrw, hr⟩ := rankV_ref_elim hrank hrv
    have hsv : stepVal cur v = v := by
      unfold passChanged at hst
      rw [List.any_eq_false] at hst
      have := hst (x, v) hmem
      simpa using this
    have hl2 : lookupVar cur nn = some v := by
      unfold stepVal at hsv
      rw [hrv] at hsv
      dsimp only at hsv
      cases hlk : lookupVar cur nn with
      | none =>
        have hvmem : v ∈ valuesOf cur := List.mem_map.mpr ⟨(x, v), hmem, rfl⟩
        have hnnkeys : nn ∈ keysOf cur := by
          rw [hg.1]
          exact allRefsDefined_spec had (hg.2 v hvmem) hrv
        have hs := lookupVar_isSome_iff.mpr hnnkeys
        rw [hlk] at hs
        cases hs
      | some v2 =>
        rw [hlk, Option.getD_some] at hsv
        rw [hsv]
    obtain ⟨r2, hrank2, hbound2⟩ := hinv nn v (lookupVar_mem hl2)
    rw [hrank] at hrank2
    injection hrank2 with hr2
    have hrank0nn : rank0 vars₀ nn = r' := by
      unfold rank0
      rw [hlw, Option.getD_some, rankV_mono hrw (by omega), Option.getD_some]
    rw [hrank0nn] at hbound2
    omega

theorem literal_passOk {l : VarTab} (hlit : ∀ kv ∈ l, refName? kv.2 = none) (s : VarTab) :
    passOk s l = l ∧ passChanged s l = false := by
  constructor
  · unfold passOk
    apply List.map_congr_left ?_ |>.trans (List.map_id l)
    intro kv hkv
    have hsv : stepVal s kv.2 = kv.2 := by
      unfold stepVal
      rw [hlit kv hkv]
    simp [hsv]
  · unfold passChanged
    rw [List.any_eq_false]
    intro kv hkv
    have hsv : stepVal s kv.2 = kv.2 := by
      unfold stepVal
      rw [hlit kv hkv]
    simp [hsv]

theorem refLoop_resolves (vars₀ : VarTab) (had : allRefsDefined vars₀ = true)
    (hnc : ¬ HasCycle vars₀) (hnd : (keysOf vars₀).Nodup) :
    ∀ (fuel k : Nat) (cur : VarTab), GoodState vars₀ cur → RankInv vars₀ k cur →
      vars₀.length ≤ fuel + k →
      ∃ final, refLoop fuel cur = .ok final ∧ GoodState vars₀ final
        ∧ (∀ kv ∈ final, refName? kv.2 = none) := by
  intro fuel
  induction fuel with
  | zero =>
    intro k cur hg hinv hfk
    refine ⟨cur, rfl, hg, ?_⟩
    rintro ⟨x, v⟩ hmem
    obtain ⟨r, hrank, hbound⟩ := hinv x v hmem
    have hxkeys : x ∈ keysOf vars₀ := by
      rw [← hg.1]
      exact List.mem_map.mpr ⟨(x, v), hmem, rfl⟩
    obtain ⟨v0, hl0⟩ : ∃ v0, lookupVar vars₀ x = some v0 := by
      have hs := lookupVar_isSome_iff.mpr hxkeys
      cases hlk : lookupVar vars₀ x with
      | none =>
        rw [hlk] at hs
        cases hs
      | some v0 => exact ⟨v0, rfl⟩
    obtain ⟨hr0, -⟩ := rank0_le vars₀ had hnc hnd (lookupVar_mem hl0)
    have hrz : r = 0 := by omega
    rw [hrz] at hrank
    exact rankV_zero_ref hrank
  | succ fuel ih =>
    intro k cur hg hinv hfk
    unfold refLoop
    rw [passEntries_ok cur cur (refsDefined_of_good had hg)]
    dsimp only
    by_cases hch : passChanged cur cur = true
    · rw [if_pos hch]
      exact ih (k + 1) (passOk cur cur) (goodState_step hg)
        (rankInv_step vars₀ had hg hinv) (by omega)
    · rw [if_neg hch]
      have hb : passChanged cur cur = false := by
        cases h : passChanged cur cur
        · rfl
        · exact absurd h hch
      have hlit := literal_of_stationary vars₀ had hg hinv hb
      rw [(literal_passOk hlit cur).1]
      exact ⟨cur, rfl, hg, hlit⟩

end Variables

/-! ### String-plumbing lemmas for the expression evaluator -/

theorem trimLeft_cons_not_ws {c : Char} {cs : Str} (h : isWs c = false) :
    trimLeft (c :: cs) = c :: cs := by
  unfold trimLeft
  rw [h]
  rfl

theorem trim_first_last {s : Str} {c d : Char} {cs ds : Str}
    (h1 : s = c :: cs) (hc : isWs c = false)
    (h2 : s.reverse = d :: ds) (hd : isWs d = false) :
    trim s = s := by
  unfold trim trimRight
  rw [h1, trimLeft_cons_not_ws hc, ← h1, h2, trimLeft_cons_not_ws hd, ← h2,
    List.reverse_reverse]

theorem trim_cons_space (s : Str) : trim (' ' :: s) = trim s := by
  have h : trimLeft (' ' :: s) = trimLeft s := by
    show (if isWs ' ' = true then trimLeft s else ' ' :: s) = trimLeft s
    rw [if_pos (by decide)]
  unfold trim
  rw [h]

theorem trim_no_ws {s : Str} (h : ∀ c ∈ s, isWs c = false) : trim s = s := by
  cases s with
  | nil => rfl
  | cons c cs =>
    cases hr : (c :: cs).reverse with
    | nil =>
      exfalso
      have hlen := congrArg List.length hr
      rw [List.length_reverse] at hlen
      cases hlen
    | cons d ds =>
      refine trim_first_last rfl (h c (List.mem_cons_self _ _)) hr (h d ?_)
      exact List.mem_reverse.mp (hr ▸ List.mem_cons_self d ds)

theorem splitOnce_append {a : Str} (ha : '(' ∉ a) (b : Str) :
    splitOnce '(' (a ++ '(' :: b) = some (a, b) := by
  induction a with
  | nil =>
    rw [List.nil_append]
    unfold splitOnce
    rw [if_pos rfl]
  | cons c cs ih =>
    have hc : ¬ c = '(' := fun h => ha (h ▸ List.mem_cons_self _ _)
    have hcs : '(' ∉ cs := fun h => ha (List.mem_cons_of_mem _ h)
    rw [List.cons_append]
    unfold splitOnce
    rw [if_neg hc, ih hcs]
    rfl

theorem stripSuffixCh_append (ch : Char) (a : Str) :
    stripSuffixCh ch (a ++ [ch]) = some a := by
  unfold stripSuffixCh
  rw [List.reverse_append, List.reverse_singleton, List.singleton_append]
  dsimp only
  rw [if_pos rfl, List.reverse_reverse]

theorem splitAll_append {a : Str} (ha : ',' ∉ a) (b : Str) :
    splitAll ',' (a ++ ',' :: b) = a :: splitAll ',' b := by
  induction a with
  | nil =>
    rw [List.nil_append]
    conv_lhs => unfold splitAll
    rw [if_pos rfl]
  | cons c cs ih =>
    have hc : ¬ c = ',' := fun h => ha (h ▸ List.mem_cons_self _ _)
    have hcs : ',' ∉ cs := fun h => ha (List.mem_cons_of_mem _ h)
    rw [List.cons_append]
    conv_lhs => unfold splitAll
    rw [if_neg hc, ih hcs]

theorem splitAll_no_sep {l : Str} (h : ',' ∉ l) : splitAll ',' l = [l] := by
  induction l with
  | nil => rfl
  | cons c cs ih =>
    have hc : ¬ c = ',' := fun heq => h (heq ▸ List.mem_cons_self _ _)
    have hcs : ',' ∉ cs := fun hm => h (List.mem_cons_of_mem _ hm)
    unfold splitAll
    rw [if_neg hc, ih hcs]

/-! ### Character-class lemmas for parsed color tokens -/

/-- A character that can occur in a token `parse_color` accepts. -/
def goodTokChar (c : Char) : Bool :=
  c = '#' || c = '+' || (hexVal c).isSome || isAsciiAlphabetic c

theorem goodTokChar_not_bad {c : Char} (h : goodTokChar c = true) :
    c ≠ '(' ∧ c ≠ ')' ∧ c ≠ ',' ∧ c ≠ '$' ∧ isWs c = false := by
  unfold goodTokChar at h
  rcases Bool.or_eq_true_iff.mp h with h1 | h1
  · rcases Bool.or_eq_true_iff.mp h1 with h2 | h2
    · rcases Bool.or_eq_true_iff.mp h2 with h3 | h3
      · have : c = '#' := by simpa using h3
        subst this
        decide
      · have : c = '+' := by simpa using h3
        subst this
        decide
    · unfold hexVal at h2
      split at h2 <;> first
        | decide
        | (exfalso; revert h2; decide)
  · unfold isAsciiAlphabetic at h1
    refine ⟨?_, ?_, ?_, ?_, ?_⟩
    · intro hc
      subst hc
      revert h1
      decide
    · intro hc
      subst hc
      revert h1
      decide
    · intro hc
      subst hc
      revert h1
      decide
    · intro hc
      subst hc
      revert h1
      decide
    · unfold isWs
      rcases Bool.or_eq_true_iff.mp h1 with h2 | h2 <;>
      · rw [Bool.and_eq_true, decide_eq_true_eq, decide_eq_true_eq] at h2
        have h65 : 65 ≤ c.toNat ∨ 97 ≤ c.toNat := by omega
        have hnot : c.toNat ≠ 32 ∧ c.toNat ≠ 9 ∧ c.toNat ≠ 10 ∧ c.toNat ≠ 13 := by omega
        simp only [Bool.or_eq_false_iff, decide_eq_false_iff_not]
        refine ⟨⟨⟨?_, ?_⟩, ?_⟩, ?_⟩ <;>
          (intro hc; subst hc; simp_all)

theorem asciiToLower_alpha {c : Char} (h : isAsciiAlphabetic (asciiToLower c) = true) :
    isAsciiAlphabetic c = true := by
  unfold asciiToLower at h
  split at h
  · next hup =>
    unfold isAsciiAlphabetic
    rw [Bool.and_eq_true, decide_eq_true_eq, decide_eq_true_eq] at hup
    simp only [Bool.or_eq_true, Bool.and_eq_true, decide_eq_true_eq]
    omega
  · exact h

/-! ### Value-level lemmas for `mix` -/

namespace Expr

theorem roundU8_natCast (b : Nat) : roundU8 (b : ℚ) = min 255 b := by
  unfold roundU8
  rw [if_neg (by
    intro hcon
    have : (0 : ℚ) ≤ (b : ℚ) := Nat.cast_nonneg b
    linarith)]
  have hfloor : ⌊(b : ℚ) + 1 / 2⌋ = (b : ℤ) := by
    rw [Int.floor_eq_iff]
    constructor
    · push_cast
      linarith
    · push_cast
      linarith
  rw [hfloor]
  simp

theorem toFarver_bytes (br bg bb : Nat) (a : ℚ)
    (h1 : br ≤ 255) (h2 : bg ≤ 255) (h3 : bb ≤ 255) :
    toFarver ⟨(br : ℚ) / 255, (bg : ℚ) / 255, (bb : ℚ) / 255, a⟩ = ⟨br, bg, bb⟩ := by
  unfold toFarver
  have e1 : ((br : ℚ) / 255) * 255 = (br : ℚ) := div_mul_cancel₀ _ (by norm_num)
  have e2 : ((bg : ℚ) / 255) * 255 = (bg : ℚ) := div_mul_cancel₀ _ (by norm_num)
  have e3 : ((bb : ℚ) / 255) * 255 = (bb : ℚ) := div_mul_cancel₀ _ (by norm_num)
  show FRGB.mk (roundU8 ((br : ℚ) / 255 * 255)) (roundU8 ((bg : ℚ) / 255 * 255))
      (roundU8 ((bb : ℚ) / 255 * 255)) = _
  rw [e1, e2, e3, roundU8_natCast, roundU8_natCast, roundU8_natCast]
  congr 1 <;> omega

theorem mixOp_self (c : FRGB) (p : Nat)
    (h1 : c.r ≤ 255) (h2 : c.g ≤ 255) (h3 : c.b ≤ 255) :
    mixOp c c p = ⟨c.r, c.g, c.b, 255⟩ := by
  unfold mixOp
  have key : ∀ b : Nat, (b : ℚ) * ((p : ℚ) / 100) + (b : ℚ) * (1 - (p : ℚ) / 100) = (b : ℚ) := by
    intro b
    ring
  show FRGBA.mk (roundU8 _) (roundU8 _) (roundU8 _) 255 = _
  rw [key c.r, key c.g, key c.b, roundU8_natCast, roundU8_natCast, roundU8_natCast]
  congr 1 <;> omega

end Expr

/-! ### Inversion lemmas for successful color parses -/

theorem except_bind_ok {ε α β : Type} {x : Except ε α} {f : α → Except ε β} {b : β}
    (h : x >>= f = .ok b) : ∃ a, x = .ok a ∧ f a = .ok b := by
  cases x with
  | error e =>
    exfalso
    rw [show (Except.error e : Except ε α) >>= f = .error e from rfl] at h
    exact Except.noConfusion h
  | ok a => exact ⟨a, rfl, h⟩

theorem exceptBindOk {ε α β : Type} (a : α) (f : α → Except ε β) :
    (Except.ok a : Except ε α) >>= f = f a := rfl

theorem hexVal_hexDigitChar : ∀ v < 16, hexVal (hexDigitChar v) = some v := by decide

theorem goodTokChar_of_alpha {c : Char} (h : isAsciiAlphabetic c = true) :
    goodTokChar c = true := by
  unfold goodTokChar
  rw [h]
  simp

theorem goodTokChar_of_hexVal {c : Char} {v : Nat} (h : hexVal c = some v) :
    goodTokChar c = true := by
  unfold goodTokChar
  rw [h]
  simp

theorem parseHexDigit_ok_inv {hex : Str} {pos : Nat} {c : Char} {rest : Str}
    (hw : hex.drop pos = c :: rest) {v : Nat} (h : parseHexDigit hex pos = .ok v) :
    hexVal c = some v := by
  unfold parseHexDigit at h
  rw [hw] at h
  dsimp only at h
  cases hv : hexVal c with
  | none =>
    rw [hv] at h
    exact absurd h (by simp)
  | some w =>
    rw [hv] at h
    dsimp only at h
    injection h with h
    rw [h]

theorem parseHexByte_ok_inv {hex : Str} {pos : Nat} {c1 c2 : Char} {rest : Str}
    (hw : hex.drop pos = c1 :: c2 :: rest) {v : Nat} (h : parseHexByte hex pos = .ok v) :
    goodTokChar c1 = true ∧ goodTokChar c2 = true ∧ v ≤ 255 := by
  unfold parseHexByte at h
  rw [hw] at h
  dsimp only [List.take] at h
  split at h
  · next win c heq =>
    injection heq with e1 erest
    injection erest with e2 _
    cases hv : hexVal c with
    | none =>
      rw [hv] at h
      dsimp only at h
      exact absurd h (by simp)
    | some w =>
      rw [hv] at h
      dsimp only at h
      injection h with h
      have hb := (hexVal_cases c w hv).1
      refine ⟨?_, ?_, by omega⟩
      · rw [e1]
        decide
      · rw [e2]
        exact goodTokChar_of_hexVal hv
  · next win d1 d2 hne heq =>
    injection heq with e1 erest
    injection erest with e2 _
    cases hv1 : hexVal d1 with
    | none =>
      cases hv2 : hexVal d2 with
      | none =>
        rw [hv1, hv2] at h
        dsimp only at h
        exact absurd h (by simp)
      | some w2 =>
        rw [hv1, hv2] at h
        dsimp only at h
        exact absurd h (by simp)
    | some w1 =>
      cases hv2 : hexVal d2 with
      | none =>
        rw [hv1, hv2] at h
        dsimp only at h
        exact absurd h (by simp)
      | some w2 =>
        rw [hv1, hv2] at h
        dsimp only at h
        injection h with h
        have b1 := (hexVal_cases d1 w1 hv1).1
        have b2 := (hexVal_cases d2 w2 hv2).1
        exact ⟨e1 ▸ goodTokChar_of_hexVal hv1, e2 ▸ goodTokChar_of_hexVal hv2, by omega⟩
  · next win hno1 hno2 =>
    exact absurd h (by simp)

theorem length_eq_six {α : Type} {l : List α} (h : l.length = 6) :
    ∃ a b c d e f, l = [a, b, c, d, e, f] := by
  rcases l with _ | ⟨a, _ | ⟨b, _ | ⟨c, _ | ⟨d, _ | ⟨e, _ | ⟨f, _ | ⟨g, t⟩⟩⟩⟩⟩⟩⟩ <;>
    first
      | exact ⟨_, _, _, _, _, _, rfl⟩
      | (simp only [List.length_cons, List.length_nil] at h; omega)

theorem length_eq_eight {α : Type} {l : List α} (h : l.length = 8) :
    ∃ a b c d e f g k, l = [a, b, c, d, e, f, g, k] := by
  rcases l with _ | ⟨a, _ | ⟨b, _ | ⟨c, _ | ⟨d, _ | ⟨e, _ | ⟨f, _ | ⟨g, _ | ⟨k, _ | ⟨m, t⟩⟩⟩⟩⟩⟩⟩⟩⟩ <;>
    first
      | exact ⟨_, _, _, _, _, _, _, _, rfl⟩
      | (simp only [List.length_cons, List.length_nil] at h; omega)

theorem chars_of_lower_eq {s t : Str} (heq : s.map asciiToLower = t)
    (ht : ∀ c ∈ t, isAsciiAlphabetic c = true) :
    ∀ c ∈ s, goodTokChar c = true := by
  intro c hc
  have hm : asciiToLower c ∈ t := heq ▸ List.mem_map_of_mem asciiToLower hc
  exact goodTokChar_of_alpha (asciiToLower_alpha (ht _ hm))

/-- Every token accepted by `parse_color` is made of ordinary token
characters, and the parsed color's RGB channels are bytes over 255. -/
theorem parseColor_ok_props {s : Str} {col : ColorQ} (h : parseColor s = .ok col) :
    (∀ c ∈ s, goodTokChar c = true) ∧
    ∃ br bg bb : Nat, br ≤ 255 ∧ bg ≤ 255 ∧ bb ≤ 255 ∧
      col.r = (br : ℚ) / 255 ∧ col.g = (bg : ℚ) / 255 ∧ col.b = (bb : ℚ) / 255 := by
  unfold parseColor at h
  dsimp only at h
  split at h
  · next hlow =>
    injection h with h
    refine ⟨chars_of_lower_eq hlow (by decide), 0, 0, 0, by norm_num, by norm_num, by norm_num,
      ?_, ?_, ?_⟩ <;> (rw [← h]; rfl)
  · next hlow1 =>
    split at h
    · next hlow =>
      injection h with h
      refine ⟨chars_of_lower_eq hlow (by decide), 255, 255, 255, by norm_num, by norm_num,
        by norm_num, ?_, ?_, ?_⟩ <;> (rw [← h]; rfl)
    · next hlow2 =>
      split at h
      · next hlow =>
        injection h with h
        refine ⟨chars_of_lower_eq hlow (by decide), 0, 0, 0, by norm_num, by norm_num,
          by norm_num, ?_, ?_, ?_⟩ <;>
          (rw [← h]; show (0 : ℚ) = ((0 : Nat) : ℚ) / 255; norm_num)
      · next hlow3 =>
        split at h
        · next hex heq =>
          split at h
          · next hlen =>
            obtain ⟨d1, d2, d3, rfl⟩ := List.length_eq_three.mp hlen
            obtain ⟨v1, e1, h⟩ := except_bind_ok h
            obtain ⟨v2, e2, h⟩ := except_bind_ok h
            obtain ⟨v3, e3, h⟩ := except_bind_ok h
            injection h with h
            have hv1 := parseHexDigit_ok_inv (rfl : ([d1, d2, d3] : Str).drop 0 = d1 :: [d2, d3]) e1
            have hv2 := parseHexDigit_ok_inv (rfl : ([d1, d2, d3] : Str).drop 1 = d2 :: [d3]) e2
            have hv3 := parseHexDigit_ok_inv (rfl : ([d1, d2, d3] : Str).drop 2 = d3 :: []) e3
            have b1 := (hexVal_cases d1 v1 hv1).1
            have b2 := (hexVal_cases d2 v2 hv2).1
            have b3 := (hexVal_cases d3 v3 hv3).1
            refine ⟨?_, 16 * v1 + v1, 16 * v2 + v2, 16 * v3 + v3, by omega, by omega, by omega,
              by rw [← h]; rfl, by rw [← h]; rfl, by rw [← h]; rfl⟩
            intro c hc
            simp only [List.mem_cons, List.not_mem_nil, or_false] at hc
            rcases hc with rfl | rfl | rfl | rfl
            · decide
            · exact goodTokChar_of_hexVal hv1
            · exact goodTokChar_of_hexVal hv2
            · exact goodTokChar_of_hexVal hv3
          · next hlen =>
            obtain ⟨d1, d2, d3, d4, d5, d6, rfl⟩ := length_eq_six hlen
            obtain ⟨v1, e1, h⟩ := except_bind_ok h
            obtain ⟨v2, e2, h⟩ := except_bind_ok h
            obtain ⟨v3, e3, h⟩ := except_bind_ok h
            injection h with h
            obtain ⟨g1, g2, bd1⟩ := parseHexByte_ok_inv
              (rfl : ([d1, d2, d3, d4, d5, d6] : Str).drop 0 = d1 :: d2 :: [d3, d4, d5, d6]) e1
            obtain ⟨g3, g4, bd2⟩ := parseHexByte_ok_inv
              (rfl : ([d1, d2, d3, d4, d5, d6] : Str).drop 2 = d3 :: d4 :: [d5, d6]) e2
            obtain ⟨g5, g6, bd3⟩ := parseHexByte_ok_inv
              (rfl : ([d1, d2, d3, d4, d5, d6] : Str).drop 4 = d5 :: d6 :: []) e3
            refine ⟨?_, v1, v2, v3, bd1, bd2, bd3,
              by rw [← h]; rfl, by rw [← h]; rfl, by rw [← h]; rfl⟩
            intro c hc
            simp only [List.mem_cons, List.not_mem_nil, or_false] at hc
            rcases hc with rfl | rfl | rfl | rfl | rfl | rfl | rfl
            · decide
            · exact g1
            · exact g2
            · exact g3
            · exact g4
            · exact g5
            · exact g6
          · next hlen =>
            obtain ⟨d1, d2, d3, d4, d5, d6, d7, d8, rfl⟩ := length_eq_eight hlen
            obtain ⟨v1, e1, h⟩ := except_bind_ok h
            obtain ⟨v2, e2, h⟩ := except_bind_ok h
            obtain ⟨v3, e3, h⟩ := except_bind_ok h
            obtain ⟨v4, e4, h⟩ := except_bind_ok h
            injection h with h
            obtain ⟨g1, g2, bd1⟩ := parseHexByte_ok_inv
              (rfl : ([d1, d2, d3, d4, d5, d6, d7, d8] : Str).drop 0
                = d1 :: d2 :: [d3, d4, d5, d6, d7, d8]) e1
            obtain ⟨g3, g4, bd2⟩ := parseHexByte_ok_inv
              (rfl : ([d1, d2, d3, d4, d5, d6, d7, d8] : Str).drop 2
                = d3 :: d4 :: [d5, d6, d7, d8]) e2
            obtain ⟨g5, g6, bd3⟩ := parseHexByte_ok_inv
              (rfl : ([d1, d2, d3, d4, d5, d6, d7, d8] : Str).drop 4
                = d5 :: d6 :: [d7, d8]) e3
            obtain ⟨g7, g8, bd4⟩ := parseHexByte_ok_inv
              (rfl : ([d1, d2, d3, d4, d5, d6, d7, d8] : Str).drop 6
                = d7 :: d8 :: []) e4
            refine ⟨?_, v1, v2, v3, bd1, bd2, bd3,
              by rw [← h]; rfl, by rw [← h]; rfl, by rw [← h]; rfl⟩
            intro c hc
            simp only [List.mem_cons, List.not_mem_nil, or_false] at hc
            rcases hc with rfl | rfl | rfl | rfl | rfl | rfl | rfl | rfl | rfl
            · decide
            · exact g1
            · exact g2
            · exact g3
            · exact g4
            · exact g5
            · exact g6
            · exact g7
            · exact g8
          · next hlen3 hlen6 hlen8 =>
            exact absurd h (by simp)
        · next hno =>
          exact absurd h (by simp)

/-- A token that parses as a color is treated by `resolve_color` as a
literal (it cannot start with `$`), and resolves to the same color. -/
theorem resolveColor_of_parse {s : Str} {col : ColorQ} (vars : VarTab)
    (h : parseColor s = .ok col) (hs : ∀ c ∈ s, goodTokChar c = true) :
    Expr.resolveColor s vars = .ok col := by
  unfold Expr.resolveColor
  dsimp only
  split
  · exfalso
    exact (goodTokChar_not_bad (hs '$' (List.mem_cons_self _ _))).2.2.2.1 rfl
  · rw [h]

/-- Parsing the serialized form of a farver `RGBA` value recovers its bytes. -/
theorem parseColor_rgbaToHex (br bg bb ab : Nat) (h1 : br ≤ 255) (h2 : bg ≤ 255)
    (h3 : bb ≤ 255) (h4 : ab ≤ 255) :
    parseColor (Expr.rgbaToHex ⟨br, bg, bb, ab⟩)
      = .ok (fromRgba8 br bg bb ((ab : ℚ) / 255)) := by
  have e := parseColor8 (hexDigitChar (br / 16)) (hexDigitChar (br % 16))
    (hexDigitChar (bg / 16)) (hexDigitChar (bg % 16))
    (hexDigitChar (bb / 16)) (hexDigitChar (bb % 16))
    (hexDigitChar (ab / 16)) (hexDigitChar (ab % 16))
    (br / 16) (br % 16) (bg / 16) (bg % 16) (bb / 16) (bb % 16) (ab / 16) (ab % 16)
    (hexVal_hexDigitChar _ (by omega)) (hexVal_hexDigitChar _ (by omega))
    (hexVal_hexDigitChar _ (by omega)) (hexVal_hexDigitChar _ (by omega))
    (hexVal_hexDigitChar _ (by omega)) (hexVal_hexDigitChar _ (by omega))
    (hexVal_hexDigitChar _ (by omega)) (hexVal_hexDigitChar _ (by omega))
  rw [Nat.div_add_mod br 16, Nat.div_add_mod bg 16, Nat.div_add_mod bb 16,
    Nat.div_add_mod ab 16] at e
  exact e

/-- The constructed `mix` call string is already trimmed. -/
theorem trim_mix_str (tok : Str) (hws : ∀ c ∈ tok, isWs c = false) :
    trim ("mix(".toList ++ (tok ++ (", ".toList ++ (tok ++ ", 50%)".toList))))
      = "mix(".toList ++ (tok ++ (", ".toList ++ (tok ++ ", 50%)".toList))) := by
  have hshape : "mix(".toList ++ (tok ++ (", ".toList ++ (tok ++ ", 50%)".toList)))
      = ("mix(".toList ++ (tok ++ (", ".toList ++ (tok ++ ", 50%".toList)))) ++ [')'] := by
    simp only [List.append_assoc, List.cons_append, List.nil_append]
    rw [show (", 50%".toList : Str) ++ [')'] = ", 50%)".toList from rfl]
  have h1 : "mix(".toList ++ (tok ++ (", ".toList ++ (tok ++ ", 50%)".toList)))
      = 'm' :: ("ix(".toList ++ (tok ++ (", ".toList ++ (tok ++ ", 50%)".toList)))) := rfl
  have hrev : ("mix(".toList ++ (tok ++ (", ".toList ++ (tok ++ ", 50%)".toList)))).reverse
      = ')' :: (("mix(".toList ++ (tok ++ (", ".toList ++ (tok ++ ", 50%".toList)))).reverse) := by
    rw [hshape, List.reverse_append]
    rfl
  exact trim_first_last h1 (by decide) hrev (by decide)

/-- Evaluating `mix(tok, tok, 50%)` on any token accepted by `parse_color`
reaches `apply` with the parsed color twice and percentage 50. -/
theorem evaluate_mix (tok : Str) (vars : VarTab) (col : ColorQ)
    (hp : parseColor tok = .ok col)
    (hg : ∀ c ∈ tok, goodTokChar c = true) :
    Expr.evaluate ("mix(".toList ++ (tok ++ (", ".toList ++ (tok ++ ", 50%)".toList)))) vars
      = .ok (Expr.rgbaToHex (Expr.mixOp (Expr.toFarver col) (Expr.toFarver col) 50)) := by
  have hws : ∀ c ∈ tok, isWs c = false := fun c hc => (goodTokChar_not_bad (hg c hc)).2.2.2.2
  have hnp : '(' ∉ tok := fun hmem => (goodTokChar_not_bad (hg '(' hmem)).1 rfl
  have hnc : ',' ∉ tok := fun hmem => (goodTokChar_not_bad (hg ',' hmem)).2.2.1 rfl
  have hso : splitOnce '(' ("mix(".toList ++ (tok ++ (", ".toList ++ (tok ++ ", 50%)".toList))))
      = some ("mix".toList, tok ++ (", ".toList ++ (tok ++ ", 50%)".toList))) :=
    splitOnce_append (a := "mix".toList) (by decide)
      (tok ++ (", ".toList ++ (tok ++ ", 50%)".toList)))
  have hRshape : tok ++ (", ".toList ++ (tok ++ ", 50%)".toList))
      = (tok ++ (", ".toList ++ (tok ++ ", 50%".toList))) ++ [')'] := by
    simp only [List.append_assoc, List.cons_append, List.nil_append]
    rw [show (", 50%".toList : Str) ++ [')'] = ", 50%)".toList from rfl]
  have hstrip : stripSuffixCh ')' (tok ++ (", ".toList ++ (tok ++ ", 50%)".toList)))
      = some (tok ++ (", ".toList ++ (tok ++ ", 50%".toList))) := by
    rw [hRshape]
    exact stripSuffixCh_append ')' _
  have hcall : Expr.parseCall ("mix(".toList ++ (tok ++ (", ".toList ++ (tok ++ ", 50%)".toList))))
      = .ok ("mix".toList, tok ++ (", ".toList ++ (tok ++ ", 50%".toList))) := by
    unfold Expr.parseCall
    rw [hso]
    dsimp only
    rw [hstrip]
    rfl
  have ha2 : ',' ∉ (' ' :: tok) := by
    intro hmem
    rcases List.mem_cons.mp hmem with h1 | h1
    · exact absurd h1 (by decide)
    · exact hnc h1
  have h2 : splitAll ',' (' ' :: (tok ++ (',' :: (' ' :: ['5', '0', '%']))))
      = (' ' :: tok) :: splitAll ',' ([' ', '5', '0', '%']) :=
    splitAll_append ha2 [' ', '5', '0', '%']
  have hsplit : splitAll ',' (tok ++ (", ".toList ++ (tok ++ ", 50%".toList)))
      = [tok, ' ' :: tok, [' ', '5', '0', '%']] := by
    show splitAll ',' (tok ++ (',' :: (' ' :: (tok ++ (',' :: (' ' :: ['5', '0', '%']))))))
      = [tok, ' ' :: tok, [' ', '5', '0', '%']]
    rw [splitAll_append hnc (' ' :: (tok ++ (',' :: (' ' :: ['5', '0', '%'])))), h2]
    rfl
  have htriml : trim tok = tok := trim_no_ws hws
  have happly : Expr.apply ("mix".toList) [tok, tok, ['5', '0', '%']] vars
      = (do
          let c1 ← Expr.resolveColor tok vars
          let c2 ← Expr.resolveColor tok vars
          let p ← Expr.parsePercent ['5', '0', '%']
          Except.ok (Expr.rgbaToHex (Expr.mixOp (Expr.toFarver c1) (Expr.toFarver c2) p))) := rfl
  unfold Expr.evaluate
  simp only [trim_mix_str tok hws, hcall, exceptBindOk]
  rw [hsplit]
  simp only [List.map_cons, List.map_nil, htriml, trim_cons_space,
    show trim ([' ', '5', '0', '%'] : Str) = ['5', '0', '%'] from rfl]
  rw [happly]
  simp only [resolveColor_of_parse vars hp hg, exceptBindOk,
    show Expr.parsePercent ['5', '0', '%'] = .ok 50 from rfl]

/-! # Claims -/

/-- **C1 (counterexample).** Two refutations of the original claim: the
table `{a ↦ "$b"}` has no reference cycle yet resolution fails (the
reference is undefined, so "no cycle implies success" is false), and the
table `{a ↦ "x$y"}` has no cycle, resolves successfully, and leaves a value
that still contains a `$` character (only a *leading* `$` is excluded). -/
theorem c1_counterexample :
    (¬ Variables.HasCycle [("a".toList, "$b".toList)]
      ∧ ∃ e, Variables.evaluateVars [("a".toList, "$b".toList)] = .error e)
    ∧ (¬ Variables.HasCycle [("a".toList, "x$y".toList)]
      ∧ Variables.evaluateVars [("a".toList, "x$y".toList)] = .ok [("a".toList, "x$y".toList)]
      ∧ '$' ∈ ("x$y".toList : Str)) := by
  have hstep1 : ∀ x, Variables.refStep [(("a".toList : Str), ("$b".toList : Str))] x
      = if ("a".toList : Str) = x then some ("b".toList) else none := by
    intro x
    unfold Variables.refStep lookupVar
    split
    · rfl
    · rfl
  have hstep2 : ∀ x, Variables.refStep [(("a".toList : Str), ("x$y".toList : Str))] x = none := by
    intro x
    unfold Variables.refStep lookupVar
    split
    · rfl
    · rfl
  refine ⟨⟨?_, ⟨_, rfl⟩⟩, ?_, rfl, by decide⟩
  · rintro ⟨x, m, hm, hiter⟩
    obtain ⟨m', rfl⟩ : ∃ k, m = k + 1 := ⟨m - 1, by omega⟩
    unfold Variables.iterRef at hiter
    rw [hstep1 x] at hiter
    by_cases hx : ("a".toList : Str) = x
    · rw [if_pos hx, Option.some_bind] at hiter
      cases m' with
      | zero =>
        rw [show Variables.iterRef [(("a".toList : Str), ("$b".toList : Str))] 0 ("b".toList)
            = some ("b".toList) from rfl] at hiter
        rw [← hx] at hiter
        cases hiter
      | succ m'' =>
        unfold Variables.iterRef at hiter
        rw [hstep1 ("b".toList)] at hiter
        rw [if_neg (by decide), Option.none_bind] at hiter
        cases hiter
    · rw [if_neg hx, Option.none_bind] at hiter
      cases hiter
  · rintro ⟨x, m, hm, hiter⟩
    obtain ⟨m', rfl⟩ : ∃ k, m = k + 1 := ⟨m - 1, by omega⟩
    unfold Variables.iterRef at hiter
    rw [hstep2 x, Option.none_bind] at hiter
    cases hiter

/-- **C1 (amended).** For every variable table with distinct names in which
every `$name` reference names an existing variable and the references
contain no cycle, the reference-resolution loop succeeds within `|vars|+1`
passes, the returned table is a fixpoint of the scan, no value starts with
`$` (so the cyclic-reference check passes and `evaluate` proceeds to the
expression phase). -/
theorem c1_acyclic_resolution (vars : VarTab)
    (hnd : (Variables.keysOf vars).Nodup)
    (had : Variables.allRefsDefined vars = true)
    (hnc : ¬ Variables.HasCycle vars) :
    ∃ final, Variables.refLoop (vars.length + 1) vars = .ok final
      ∧ (∀ kv ∈ final, Variables.refName? kv.2 = none)
      ∧ Variables.passEntries final final = .ok (final, false)
      ∧ Variables.cyclicEntries final = []
      ∧ Variables.evaluateVars vars = Variables.exprPass final final := by
  obtain ⟨final, hloop, hgf, hlit⟩ :=
    Variables.refLoop_resolves vars had hnc hnd (vars.length + 1) 0 vars
      (Variables.goodState_refl vars) (Variables.rankInv_init vars had hnc hnd) (by omega)
  have hcyc : Variables.cyclicEntries final = [] := by
    unfold Variables.cyclicEntries
    rw [List.filter_eq_nil.mpr ?_]
    · rfl
    · intro kv hkv
      rw [hlit kv hkv]
      simp
  have hfix : Variables.passEntries final final = .ok (final, false) := by
    rw [Variables.passEntries_ok final final ?_]
    · rw [(Variables.literal_passOk hlit final).1, (Variables.literal_passOk hlit final).2]
    · intro kv hkv n hn
      rw [hlit kv hkv] at hn
      cases hn
  refine ⟨final, hloop, hlit, hfix, hcyc, ?_⟩
  unfold Variables.evaluateVars
  rw [hloop]
  dsimp only
  rw [if_neg (by rw [hcyc]; simp)]

/-- **C1 (witness).** The amended theorem applied to the concrete acyclic
table `{a ↦ "$b", b ↦ "#FF0000"}`. -/
theorem c1_witness :
    ∃ final, Variables.refLoop 3 [("a".toList, "$b".toList), ("b".toList, "#FF0000".toList)]
        = .ok final
      ∧ (∀ kv ∈ final, Variables.refName? kv.2 = none)
      ∧ Variables.passEntries final final = .ok (final, false)
      ∧ Variables.cyclicEntries final = []
      ∧ Variables.evaluateVars [("a".toList, "$b".toList), ("b".toList, "#FF0000".toList)]
          = Variables.exprPass final final := by
  have hnc : ¬ Variables.HasCycle
      [("a".toList, "$b".toList), ("b".toList, "#FF0000".toList)] := by
    rintro ⟨x, m, hm, hiter⟩
    have hstep : ∀ y, Variables.refStep
        [(("a".toList : Str), ("$b".toList : Str)), (("b".toList : Str), ("#FF0000".toList : Str))] y
        = if ("a".toList : Str) = y then some ("b".toList) else none := by
      intro y
      unfold Variables.refStep lookupVar
      split
      · rfl
      · unfold lookupVar
        split
        · rfl
        · rfl
    obtain ⟨m', rfl⟩ : ∃ k, m = k + 1 := ⟨m - 1, by omega⟩
    unfold Variables.iterRef at hiter
    rw [hstep x] at hiter
    by_cases hx : ("a".toList : Str) = x
    · rw [if_pos hx, Option.some_bind] at hiter
      cases m' with
      | zero =>
        rw [show Variables.iterRef
            [(("a".toList : Str), ("$b".toList : Str)), (("b".toList : Str), ("#FF0000".toList : Str))]
            0 ("b".toList) = some ("b".toList) from rfl] at hiter
        rw [← hx] at hiter
        cases hiter
      | succ m'' =>
        unfold Variables.iterRef at hiter
        rw [hstep ("b".toList)] at hiter
        rw [if_neg (by decide), Option.none_bind] at hiter
        cases hiter
    · rw [if_neg hx, Option.none_bind] at hiter
      cases hiter
  exact c1_acyclic_resolution _ (by decide) (by decide) hnc

/-- **C2.** For every variable table containing a reference cycle and no
reference to an undefined name, the reference-resolution loop completes
without an undefined-variable error and `evaluate` fails with the single
cyclic-reference error whose message lists exactly the variables whose
values still start with `$` when the loop ends. -/
theorem c2_cycle_detection (vars : VarTab)
    (had : Variables.allRefsDefined vars = true) (hcyc : Variables.HasCycle vars) :
    ∃ final, Variables.refLoop (vars.length + 1) vars = .ok final
      ∧ Variables.cyclicEntries final ≠ []
      ∧ Variables.evaluateVars vars = .error (Variables.cyclicMsg final) := by
  obtain ⟨x0, hx0⟩ := Variables.hasCycle_iff.mp hcyc
  obtain ⟨final, hloop, hgf, hinvf⟩ :=
    Variables.refLoop_preserves vars had (Variables.CycInv vars)
      (fun cur _ hp => Variables.cycInv_step hp)
      (vars.length + 1) vars (Variables.goodState_refl vars) (Variables.cycInv_init vars)
  obtain ⟨y, hly, -⟩ := hinvf x0 hx0
  have hmem := Variables.lookupVar_mem hly
  have hne := Variables.cyclicEntries_ne_nil hmem
  refine ⟨final, hloop, hne, ?_⟩
  unfold Variables.evaluateVars
  rw [hloop]
  dsimp only
  rw [if_pos hne]

/-- **C2 (witness).** The theorem applied to the concrete two-variable cycle
`a = "$b"`, `b = "$a"`. -/
theorem c2_witness :
    ∃ final, Variables.refLoop 3 [("a".toList, "$b".toList), ("b".toList, "$a".toList)]
        = .ok final
      ∧ Variables.cyclicEntries final ≠ []
      ∧ Variables.evaluateVars [("a".toList, "$b".toList), ("b".toList, "$a".toList)]
          = .error (Variables.cyclicMsg final) :=
  c2_cycle_detection [("a".toList, "$b".toList), ("b".toList, "$a".toList)]
    (by decide) ⟨"a".toList, 2, by omega, by decide⟩

/-- **C5.** The field-set merge generated by `impl_merge!` is right-biased per
field — for every field the override's value if present, else the base's
(stated as agreement with the spec-side merge, for the button and checkbox
instantiations) — it is associative, and merging three layers that each set
a disjoint field produces a record containing all three values. -/
theorem c5_merge_right_biased_assoc :
    (∀ a b : Button.ButtonFieldsRaw, a.merge b = buttonMergeSpec a b)
    ∧ (∀ a b : Checkbox.CheckboxFieldsRaw, a.merge b = checkboxMergeSpec a b)
    ∧ (∀ a b c : Button.ButtonFieldsRaw, (a.merge b).merge c = a.merge (b.merge c))
    ∧ (∀ (v1 v2 : ColorQ) (v3 : ℚ),
        (({ background := some v1 } : Button.ButtonFieldsRaw).merge
            { text_color := some v2 }).merge { border_width := some v3 }
          = { background := some v1, text_color := some v2, border_width := some v3 }) := by
  refine ⟨?_, ?_, ?_, ?_⟩
  · intro a b
    simp [Button.ButtonFieldsRaw.merge, buttonMergeSpec, mergeSpecField_eq_or]
  · intro a b
    simp [Checkbox.CheckboxFieldsRaw.merge, checkboxMergeSpec, mergeSpecField_eq_or]
  · intro a b c
    simp [Button.ButtonFieldsRaw.merge, Option.or_assoc]
  · intro v1 v2 v3
    rfl

/-- **C6.** A checkbox section defining only `base` and `hovered` (no
`checked`, no `hovered-checked`, and no other sub-table) still yields an
appearance for the `(hovered, checked = true)` combination, and that
appearance is exactly `base` merged with `hovered` only — no state layer
applied. -/
theorem c6_partial_schema_hovered_checked
    (base hov : Checkbox.CheckboxFieldsRaw) :
    (Checkbox.CheckboxSection.resolve
        { base := base, checked := none, hovered := some hov, disabled := none,
          hovered_checked := none, disabled_checked := none }).style_fn
        (.hovered true)
      = Checkbox.into_native (base.merge hov) := by
  rfl

/-- **C7.** For every raw theme, each entity kind's accessor is `none`
exactly when the raw document omitted that section; a present-but-empty
section resolves to the fully-defaulted style, whose every status/state
lookup succeeds with the fully-defaulted appearance; and the theme name
defaults to `"Custom"` when absent. -/
theorem c7_section_presence_and_defaults :
    (∀ raw : Config.ThemeRaw, (Config.themeFromRaw raw).name = raw.name.getD ("Custom".toList))
    ∧ (∀ raw : Config.ThemeRaw,
        ((Config.themeFromRaw raw).button = none ↔ raw.button = none)
        ∧ ((Config.themeFromRaw raw).container = none ↔ raw.container = none)
        ∧ ((Config.themeFromRaw raw).text_input = none ↔ raw.text_input = none)
        ∧ ((Config.themeFromRaw raw).checkbox = none ↔ raw.checkbox = none)
        ∧ ((Config.themeFromRaw raw).toggler = none ↔ raw.toggler = none)
        ∧ ((Config.themeFromRaw raw).slider = none ↔ raw.slider = none)
        ∧ ((Config.themeFromRaw raw).progress_bar = none ↔ raw.progress_bar = none)
        ∧ ((Config.themeFromRaw raw).radio = none ↔ raw.radio = none))
    ∧ (∀ st, (Button.ButtonSection.resolve {}).get st = Button.defaultAppearance)
    ∧ ((Container.ContainerSection.resolve {}).appearance = Container.defaultAppearance)
    ∧ (∀ st, (TextInput.TextInputSection.resolve {}).style_fn st = TextInput.defaultNative)
    ∧ (∀ st, (Checkbox.CheckboxSection.resolve {}).style_fn st = Checkbox.defaultNative)
    ∧ (∀ st, (Toggler.TogglerSection.resolve {}).get st = Toggler.defaultAppearance)
    ∧ (∀ st, (Slider.SliderSection.resolve {}).get st = Slider.defaultAppearance)
    ∧ ((ProgressBar.ProgressBarSection.resolve {}).appearance = ProgressBar.defaultAppearance)
    ∧ (∀ st, (Radio.RadioSection.resolve {}).get st = Radio.defaultAppearance) := by
  refine ⟨fun raw => rfl, fun raw => ?_, ?_, rfl, ?_, ?_, ?_, ?_, rfl, ?_⟩
  · refine ⟨?_, ?_, ?_, ?_, ?_, ?_, ?_, ?_⟩ <;>
      simp [Config.themeFromRaw, Option.map_eq_none']
  · rintro (_ | _ | _ | _) <;> rfl
  · rintro (_ | _ | ⟨_ | _⟩ | _) <;> rfl
  · rintro (⟨_ | _⟩ | ⟨_ | _⟩ | ⟨_ | _⟩) <;> rfl
  · rintro (⟨_ | _⟩ | ⟨_ | _⟩ | ⟨_ | _⟩) <;> rfl
  · rintro (_ | _ | _) <;> rfl
  · rintro (⟨_ | _⟩ | ⟨_ | _⟩ | ⟨_ | _⟩) <;> rfl

/-- **C3 (counterexample).** A document with no `[variables]` table whose
body contains the reference `"$primary"` resolves successfully and
unchanged — no undefined-variable error is raised, refuting the claim's
"this holds in particular when the document has no `[variables]` table". -/
theorem c3_counterexample :
    Variables.resolveDoc
        (.table (.cons ("button".toList)
          (.table (.cons ("background".toList) (.str ("$primary".toList)) .nil)) .nil))
      = .ok (.table (.cons ("button".toList)
          (.table (.cons ("background".toList) (.str ("$primary".toList)) .nil)) .nil)) := by
  rfl

/-- **C3 (amended).** A whole-string `$name` reference to an undefined
variable fails resolution with an "undefined variable" error naming a
missing variable, whether it occurs inside a (nonempty) variable table, as
an expression argument, or inline in the document body; however, when the
`[variables]` table is absent or empty, substitution is skipped entirely
and the document is returned unchanged, so inline references survive. -/
theorem c3_undefined_variable :
    (∀ (vars : VarTab) (k n : Str), (k, '$' :: n) ∈ vars → containsKey vars n = false →
      ∃ n' k', Variables.evaluateVars vars = .error (Variables.undefinedVarMsg n' k')
        ∧ containsKey vars n' = false)
    ∧ (∀ (vars : VarTab) (n : Str), lookupVar vars n = none →
      Expr.resolveColor ('$' :: n) vars
        = .error ("undefined variable `$".toList ++ n ++ "`".toList))
    ∧ (∀ (vars : VarTab) (n : Str), lookupVar vars n = none →
      Variables.substitute vars (.str ('$' :: n)) = .error (Variables.substUndefMsg n))
    ∧ (∀ (vars : VarTab) (doc : TomlValue), Variables.hasUndefRef vars doc = true →
      ∃ e, Variables.substitute vars doc = .error e)
    ∧ (∀ (root root' : TomlValue), Variables.extract root = .ok ([], root') →
      Variables.resolveDoc root = .ok root') := by
  refine ⟨?_, ?_, ?_, ?_, ?_⟩
  · intro vars k n hmem hundef
    have hlook : lookupVar vars n = none := by
      unfold containsKey at hundef
      cases hl : lookupVar vars n
      · rfl
      · rw [hl] at hundef
        cases hundef
    obtain ⟨n', k', heq, hl'⟩ :=
      passEntries_error_of_undef vars vars ⟨(k, '$' :: n), hmem, n, rfl, hlook⟩
    refine ⟨n', k', evaluateVars_error_of_pass_error vars _ heq, ?_⟩
    unfold containsKey
    rw [hl']
    rfl
  · intro vars n h
    show (match lookupVar vars n with
      | some lit =>
        match parseColor lit with
        | .ok c => Except.ok c
        | .error e => Except.error ("invalid color `".toList ++ lit ++ "`: ".toList ++ e)
      | none => Except.error ("undefined variable `$".toList ++ n ++ "`".toList))
      = Except.error ("undefined variable `$".toList ++ n ++ "`".toList)
    rw [h]
  · intro vars n h
    show (match lookupVar vars n with
      | some resolved => Except.ok (TomlValue.str resolved)
      | none => Except.error (Variables.substUndefMsg n))
      = Except.error (Variables.substUndefMsg n)
    rw [h]
  · intro vars doc h
    exact substitute_error_of_undef vars doc h
  · intro root root' h
    unfold Variables.resolveDoc
    rw [h]
    rfl

/-- **C3 (witness).** The amended theorem applied at concrete inputs: the
table `{a ↦ "$missing"}` fails with an undefined-variable error, the
expression argument `$missing` and the inline string `"$missing"` fail
against the table `{a ↦ "#FF0000"}`, and a document whose extraction
yields no variables resolves unchanged. -/
theorem c3_witness :
    (∃ n' k', Variables.evaluateVars [("a".toList, "$missing".toList)]
        = .error (Variables.undefinedVarMsg n' k')
      ∧ containsKey [("a".toList, "$missing".toList)] n' = false)
    ∧ Expr.resolveColor ("$missing".toList) [("a".toList, "#FF0000".toList)]
        = .error ("undefined variable `$".toList ++ "missing".toList ++ "`".toList)
    ∧ Variables.substitute [("a".toList, "#FF0000".toList)] (.str ("$missing".toList))
        = .error (Variables.substUndefMsg ("missing".toList))
    ∧ Variables.resolveDoc (.str ("$primary".toList)) = .ok (.str ("$primary".toList)) :=
  ⟨c3_undefined_variable.1 [("a".toList, "$missing".toList)] ("a".toList) ("missing".toList)
      (by simp) (by decide),
   c3_undefined_variable.2.1 [("a".toList, "#FF0000".toList)] ("missing".toList) (by decide),
   c3_undefined_variable.2.2.1 [("a".toList, "#FF0000".toList)] ("missing".toList) (by decide),
   c3_undefined_variable.2.2.2.2 (.str ("$primary".toList)) (.str ("$primary".toList)) (by rfl)⟩

/-- **C4.** For every valid 6-digit hex string, parsing then canonicalizing
reproduces the string case-normalized to uppercase; likewise for 8-digit
strings whose alpha byte is not `FF`, while an alpha byte of `FF` collapses
to the 6-digit form; a 3-digit token parses to the same color as the
6-digit token with each digit duplicated; and canonicalization emits a
7-character `#RRGGBB` form exactly when alpha is 1.0 within `f32::EPSILON`,
and the 9-character `#RRGGBBAA` form otherwise. -/
theorem c4_hex_roundtrip :
    (∀ c1 c2 c3 c4 c5 c6 v1 v2 v3 v4 v5 v6,
      hexVal c1 = some v1 → hexVal c2 = some v2 → hexVal c3 = some v3 →
      hexVal c4 = some v4 → hexVal c5 = some v5 → hexVal c6 = some v6 →
      ∃ col, parseColor ('#' :: [c1, c2, c3, c4, c5, c6]) = .ok col
        ∧ displayColor col
          = '#' :: [asciiToUpper c1, asciiToUpper c2, asciiToUpper c3,
              asciiToUpper c4, asciiToUpper c5, asciiToUpper c6])
    ∧ (∀ c1 c2 c3 c4 c5 c6 c7 c8 v1 v2 v3 v4 v5 v6 v7 v8,
      hexVal c1 = some v1 → hexVal c2 = some v2 → hexVal c3 = some v3 →
      hexVal c4 = some v4 → hexVal c5 = some v5 → hexVal c6 = some v6 →
      hexVal c7 = some v7 → hexVal c8 = some v8 →
      ∃ col, parseColor ('#' :: [c1, c2, c3, c4, c5, c6, c7, c8]) = .ok col
        ∧ (16 * v7 + v8 ≠ 255 →
            displayColor col
              = '#' :: [asciiToUpper c1, asciiToUpper c2, asciiToUpper c3, asciiToUpper c4,
                  asciiToUpper c5, asciiToUpper c6, asciiToUpper c7, asciiToUpper c8])
        ∧ (16 * v7 + v8 = 255 →
            displayColor col
              = '#' :: [asciiToUpper c1, asciiToUpper c2, asciiToUpper c3,
                  asciiToUpper c4, asciiToUpper c5, asciiToUpper c6]))
    ∧ (∀ c1 c2 c3 v1 v2 v3,
      hexVal c1 = some v1 → hexVal c2 = some v2 → hexVal c3 = some v3 →
      parseColor ('#' :: [c1, c2, c3]) = parseColor ('#' :: [c1, c1, c2, c2, c3, c3]))
    ∧ (∀ col : ColorQ,
      (displayColor col).length = if |col.a - 1| < epsQ then 7 else 9) := by
  refine ⟨?_, ?_, ?_, ?_⟩
  · intro c1 c2 c3 c4 c5 c6 v1 v2 v3 v4 v5 v6 h1 h2 h3 h4 h5 h6
    obtain ⟨b1, u1, -⟩ := hexVal_cases c1 v1 h1
    obtain ⟨b2, u2, -⟩ := hexVal_cases c2 v2 h2
    obtain ⟨b3, u3, -⟩ := hexVal_cases c3 v3 h3
    obtain ⟨b4, u4, -⟩ := hexVal_cases c4 v4 h4
    obtain ⟨b5, u5, -⟩ := hexVal_cases c5 v5 h5
    obtain ⟨b6, u6, -⟩ := hexVal_cases c6 v6 h6
    refine ⟨_, parseColor6 c1 c2 c3 c4 c5 c6 v1 v2 v3 v4 v5 v6 h1 h2 h3 h4 h5 h6, ?_⟩
    rw [displayColor_rgb _ _ _ (by omega) (by omega) (by omega),
      hex2_of_digits v1 v2 b1 b2, hex2_of_digits v3 v4 b3 b4, hex2_of_digits v5 v6 b5 b6,
      u1, u2, u3, u4, u5, u6]
    rfl
  · intro c1 c2 c3 c4 c5 c6 c7 c8 v1 v2 v3 v4 v5 v6 v7 v8 h1 h2 h3 h4 h5 h6 h7 h8
    obtain ⟨b1, u1, -⟩ := hexVal_cases c1 v1 h1
    obtain ⟨b2, u2, -⟩ := hexVal_cases c2 v2 h2
    obtain ⟨b3, u3, -⟩ := hexVal_cases c3 v3 h3
    obtain ⟨b4, u4, -⟩ := hexVal_cases c4 v4 h4
    obtain ⟨b5, u5, -⟩ := hexVal_cases c5 v5 h5
    obtain ⟨b6, u6, -⟩ := hexVal_cases c6 v6 h6
    obtain ⟨b7, u7, -⟩ := hexVal_cases c7 v7 h7
    obtain ⟨b8, u8, -⟩ := hexVal_cases c8 v8 h8
    refine ⟨_, parseColor8 c1 c2 c3 c4 c5 c6 c7 c8 v1 v2 v3 v4 v5 v6 v7 v8
      h1 h2 h3 h4 h5 h6 h7 h8, ?_, ?_⟩
    · intro hne
      rw [displayColor_rgba _ _ _ _ (by omega) (by omega) (by omega) (by omega) hne,
        hex2_of_digits v1 v2 b1 b2, hex2_of_digits v3 v4 b3 b4, hex2_of_digits v5 v6 b5 b6,
        hex2_of_digits v7 v8 b7 b8, u1, u2, u3, u4, u5, u6, u7, u8]
      rfl
    · intro heq
      rw [heq]
      rw [show ((255 : Nat) : ℚ) / 255 = ((255 : Nat) : ℚ) / 255 from rfl]
      rw [displayColor_rgba_full_alpha _ _ _ (by omega) (by omega) (by omega),
        hex2_of_digits v1 v2 b1 b2, hex2_of_digits v3 v4 b3 b4, hex2_of_digits v5 v6 b5 b6,
        u1, u2, u3, u4, u5, u6]
      rfl
  · intro c1 c2 c3 v1 v2 v3 h1 h2 h3
    rw [parseColor3 c1 c2 c3 v1 v2 v3 h1 h2 h3,
      parseColor6 c1 c1 c2 c2 c3 c3 v1 v1 v2 v2 v3 v3 h1 h1 h2 h2 h3 h3]
  · intro col
    unfold displayColor
    split <;> simp [hex2]

/-- **C4 (witness).** The round-trip at `#0a1b2c` (lowercase input,
uppercase canonical output), the 8-digit collapse at alpha `FF`, the
3-digit expansion at `#F80`, and the emission rule at a concrete color. -/
theorem c4_witness :
    (∃ col, parseColor ('#' :: ['0', 'a', '1', 'b', '2', 'c']) = .ok col
      ∧ displayColor col = '#' :: ['0', 'A', '1', 'B', '2', 'C'])
    ∧ parseColor ('#' :: ['F', '8', '0']) = parseColor ('#' :: ['F', 'F', '8', '8', '0', '0']) := by
  constructor
  · have h := c4_hex_roundtrip.1 '0' 'a' '1' 'b' '2' 'c' 0 10 1 11 2 12
      (by decide) (by decide) (by decide) (by decide) (by decide) (by decide)
    simpa using h
  · exact c4_hex_roundtrip.2.2.1 'F' '8' '0' 15 8 0 (by decide) (by decide) (by decide)

/-- **C10.** A percentage argument is accepted exactly when, after stripping
the `%` suffix and trimming, the remainder is a `u8` numeral of value at
most 100; in particular every integer 0–100 is accepted, and a fractional
value, a negative value, a value above 100, and a missing `%` suffix are
each rejected. -/
theorem c10_percent_acceptance :
    (∀ s n, Expr.parsePercent s = .ok n ↔
      ∃ body, stripSuffixCh '%' s = some body ∧ parseU8 (trim body) = some n ∧ n ≤ 100)
    ∧ (∀ n, n < 101 → Expr.parsePercent (natToStr n ++ "%".toList) = .ok n)
    ∧ ((Expr.parsePercent ("12.5%".toList)).isOk = false)
    ∧ ((Expr.parsePercent ("-3%".toList)).isOk = false)
    ∧ ((Expr.parsePercent ("150%".toList)).isOk = false)
    ∧ ((Expr.parsePercent ("20".toList)).isOk = false) := by
  refine ⟨?_, by decide, by decide, by decide, by decide, by decide⟩
  intro s n
  unfold Expr.parsePercent
  constructor
  · intro h
    split at h
    · exact absurd h (by simp)
    · next body hb =>
      dsimp only at h
      split at h
      · exact absurd h (by simp)
      · next m hm =>
        split at h
        · exact absurd h (by simp)
        · next hgt =>
          cases h
          exact ⟨body, hb, hm, by omega⟩
  · rintro ⟨body, hb, hp, hle⟩
    rw [hb]
    dsimp only
    rw [hp]
    simp [show ¬ n > 100 from by omega]

/-- **C10 (witness).** The acceptance theorem applied at concrete inputs:
`"50%"` is accepted with value 50, and `"20"` (missing `%`) is rejected. -/
theorem c10_witness :
    Expr.parsePercent ("50%".toList) = .ok 50
    ∧ (Expr.parsePercent ("20".toList)).isOk = false :=
  ⟨c10_percent_acceptance.2.1 50 (by decide), c10_percent_acceptance.2.2.2.2.2⟩

/-- **C8 (counterexample).** `"a (b)"` is treated as an expression by the
code's heuristic although it does not consist of an identifier immediately
followed by `(` — refuting the claimed "exactly when". -/
theorem c8_counterexample :
    Variables.isExpr ("a (b)".toList) = true
    ∧ Variables.specFnCallShape ("a (b)".toList) = false := by
  decide

/-- **C8 (amended).** A string is handed to the expression evaluator exactly
when its first character is an ASCII letter and it contains `(` anywhere
(not necessarily immediately after an identifier); in Step C and in
substitution, strings failing the heuristic are left for `$name` handling
or left unchanged, and strings passing it are replaced by the evaluator's
result. -/
theorem c8_expr_detection :
    (∀ s : Str, Variables.isExpr s = true ↔
      ((∃ c cs, s = c :: cs ∧ isAsciiAlphabetic c = true) ∧ '(' ∈ s))
    ∧ (∀ (vars : VarTab) (s : Str), Variables.refName? s = none →
        Variables.isExpr s = false →
        Variables.substitute vars (.str s) = .ok (.str s))
    ∧ (∀ (vars : VarTab) (s r : Str), Variables.refName? s = none →
        Variables.isExpr s = true → Expr.evaluate s vars = .ok r →
        Variables.substitute vars (.str s) = .ok (.str r))
    ∧ (∀ (snap : VarTab) (k v : Str) (rest : VarTab), Variables.isExpr v = false →
        Variables.exprPass snap ((k, v) :: rest)
          = (Variables.exprPass snap rest).map (fun t => (k, v) :: t))
    ∧ (∀ (snap : VarTab) (k v r : Str) (rest : VarTab), Variables.isExpr v = true →
        Expr.evaluate v snap = .ok r →
        Variables.exprPass snap ((k, v) :: rest)
          = (Variables.exprPass snap rest).map (fun t => (k, r) :: t)) := by
  refine ⟨?_, ?_, ?_, ?_, ?_⟩
  · intro s
    cases s with
    | nil => simp [Variables.isExpr]
    | cons c cs =>
      simp only [Variables.isExpr, Bool.and_eq_true, List.elem_iff]
      constructor
      · rintro ⟨hmem, halpha⟩
        exact ⟨⟨c, cs, rfl, halpha⟩, hmem⟩
      · rintro ⟨⟨c', cs', heq, halpha⟩, hmem⟩
        cases heq
        exact ⟨hmem, halpha⟩
  · intro vars s h1 h2
    unfold Variables.substitute
    rw [h1, h2]
    simp
  · intro vars s r h1 h2 h3
    unfold Variables.substitute
    rw [h1, h2, h3]
    simp
  · intro snap k v rest h
    cases hrest : Variables.exprPass snap rest <;>
      simp [Variables.exprPass, h, hrest, Except.map]
  · intro snap k v r rest h1 h2
    cases hrest : Variables.exprPass snap rest <;>
      simp [Variables.exprPass, h1, h2, hrest, Except.map]

/-- **C8 (witness).** The amended theorem applied at concrete inputs: the
non-expression string `"Arial"` is left unchanged by substitution, and the
heuristic holds at `"darken(#102030, 20%)"`. -/
theorem c8_witness :
    Variables.substitute [] (.str ("Arial".toList)) = .ok (.str ("Arial".toList))
    ∧ (Variables.isExpr ("darken(#102030, 20%)".toList) = true ↔
      ((∃ c cs, ("darken(#102030, 20%)".toList : Str) = c :: cs ∧ isAsciiAlphabetic c = true)
        ∧ '(' ∈ ("darken(#102030, 20%)".toList : Str))) :=
  ⟨c8_expr_detection.2.1 [] ("Arial".toList) (by decide) (by decide),
   c8_expr_detection.1 ("darken(#102030, 20%)".toList)⟩
/-- **C9 (counterexample).** The original claim fails for tokens with
non-opaque alpha: `to_farver` discards the alpha channel, so
`mix(#FF000080, #FF000080, 50%)` evaluates to the fully opaque token
`#FF0000FF`, which denotes a different color than the half-transparent
input `#FF000080`. -/
theorem c9_counterexample :
    Expr.evaluate ("mix(#FF000080, #FF000080, 50%)".toList) [] = .ok ("#FF0000FF".toList)
    ∧ parseColor ("#FF0000FF".toList) ≠ parseColor ("#FF000080".toList) := by
  have hp : parseColor ("#FF000080".toList)
      = .ok (fromRgba8 255 0 0 (((128 : Nat) : ℚ) / 255)) :=
    parseColor8 'F' 'F' '0' '0' '0' '0' '8' '0' 15 15 0 0 0 0 8 0
      rfl rfl rfl rfl rfl rfl rfl rfl
  constructor
  · have hmix := evaluate_mix ("#FF000080".toList) [] _ hp (by decide)
    have hval : Expr.rgbaToHex (Expr.mixOp
          (Expr.toFarver (fromRgba8 255 0 0 (((128 : Nat) : ℚ) / 255)))
          (Expr.toFarver (fromRgba8 255 0 0 (((128 : Nat) : ℚ) / 255))) 50)
        = "#FF0000FF".toList := by
      rw [show Expr.toFarver (fromRgba8 255 0 0 (((128 : Nat) : ℚ) / 255)) = ⟨255, 0, 0⟩ from
        Expr.toFarver_bytes 255 0 0 _ (by norm_num) (by norm_num) (by norm_num)]
      rw [Expr.mixOp_self ⟨255, 0, 0⟩ 50 (by norm_num) (by norm_num) (by norm_num)]
      rfl
    rw [hval] at hmix
    exact hmix
  · have h1 : parseColor ("#FF0000FF".toList)
        = .ok (fromRgba8 255 0 0 (((255 : Nat) : ℚ) / 255)) :=
      parseColor8 'F' 'F' '0' '0' '0' '0' 'F' 'F' 15 15 0 0 0 0 15 15
        rfl rfl rfl rfl rfl rfl rfl rfl
    intro heq
    rw [h1, hp] at heq
    simp only [fromRgba8, Except.ok.injEq, ColorQ.mk.injEq] at heq
    have := heq.2.2.2
    norm_num at this

/-- **C9 (amended).** For every literal color token that parses to a *fully
opaque* color, evaluating `mix(tok, tok, 50%)` succeeds and returns a token
denoting the same color (the result is the 8-digit hex serialization of the
farver `RGBA` blend, whose alpha byte is 255).  For tokens with alpha below
1 the self-mix is not idempotent, because `to_farver` discards the alpha
channel (see the counterexample). -/
theorem c9_mix_self (tok : Str) (col : ColorQ) (vars : VarTab)
    (hp : parseColor tok = .ok col) (ha : col.a = 1) :
    ∃ out,
      Expr.evaluate ("mix(".toList ++ (tok ++ (", ".toList ++ (tok ++ ", 50%)".toList)))) vars
        = .ok out ∧ parseColor out = .ok col := by
  obtain ⟨hchars, br, bg, bb, hbr, hbg, hbb, hr, hgc, hbc⟩ := parseColor_ok_props hp
  have hev := evaluate_mix tok vars col hp hchars
  refine ⟨_, hev, ?_⟩
  obtain ⟨cr, cg, cb, ca⟩ := col
  dsimp only at hr hgc hbc ha
  subst hr hgc hbc ha
  rw [Expr.toFarver_bytes br bg bb 1 hbr hbg hbb]
  rw [Expr.mixOp_self ⟨br, bg, bb⟩ 50 hbr hbg hbb]
  rw [parseColor_rgbaToHex br bg bb 255 hbr hbg hbb (le_refl 255)]
  simp only [fromRgba8, Except.ok.injEq, ColorQ.mk.injEq]
  norm_num

/-- **C9 (witness).** The amended theorem applied at the opaque token
`#102030` with an empty variable table: the self-mix evaluates to a token
that parses back to the same color. -/
theorem c9_witness :
    parseColor ("#102030".toList) = .ok (fromRgb8 16 32 48) ∧
    ∃ out,
      Expr.evaluate ("mix(".toList ++ ("#102030".toList ++ (", ".toList
          ++ ("#102030".toList ++ ", 50%)".toList)))) []
        = .ok out ∧ parseColor out = .ok (fromRgb8 16 32 48) := by
  have hp : parseColor ("#102030".toList) = .ok (fromRgb8 16 32 48) :=
    parseColor6 '1' '0' '2' '0' '3' '0' 1 0 2 0 3 0 rfl rfl rfl rfl rfl rfl
  exact ⟨hp, c9_mix_self ("#102030".toList) (fromRgb8 16 32 48) [] hp rfl⟩

end IcedThemer
